import Mathlib

/-! GSearch-crawler: coordinator and parsing pipeline

A shallow embedding of `control/controller.go`, `crawler/crawler.go`,
`crawler/parser/parseUtils/parseUtils.go` and `crawler/parser/htmlParser/htmlParser.go`,
followed by the theorems that settle the specification's claims about them.

Conventions of the embedding:

* Go slices are lists, Go strings are `String`s.
* Go's `int` is the 64-bit two's-complement integer: values are `Int`s and every
  arithmetic result goes through `wrapInt`.
* The controller's mutable fields are an explicit state record `Controller`; the store
  behind `db.DBI` is the log of the `InsertSite` calls made so far.
* A run-time panic (index out of range, nil dereference) is an explicit outcome `Exec.panic`
  carrying the state reached when it was raised.
* Loops whose termination is not structural take a fuel argument and answer `none` when it
  runs out.
* What the code takes from Go's standard library and cannot be expressed here
  (`net/url`, `strings.ToLower`) is a parameter, `GoStd`.
* Log output is not modelled.
-/

namespace GSCrawler

/-! ## types/types.go -/

/-- The record `types.Site`; `Err` is `none` for Go's `nil` error, and `Type_` is the field
`Type`. -/
structure Site where
  Url : String
  Host : String
  Scheme : String
  Text : List String
  Links : List String
  Timestamp : String
  Depth : Int
  FoundThrough : String
  Type_ : String
  Err : Option String
deriving DecidableEq, Repr

/-- The zero value of `types.Site`. -/
def Site.zero : Site :=
  { Url := "", Host := "", Scheme := "", Text := [], Links := [], Timestamp := "",
    Depth := 0, FoundThrough := "", Type_ := "", Err := none }

/-- The composite literal `types.Site{Url: url, Depth: depth, FoundThrough: found}`. -/
def Site.target (url : String) (depth : Int) (found : String) : Site :=
  { Site.zero with Url := url, Depth := depth, FoundThrough := found }

/-! ## Machine integers -/

/-- Wrap-around of a mathematical integer into the range of Go's 64-bit `int`. -/
def wrapInt (x : Int) : Int := (x + 2 ^ 63) % 2 ^ 64 - 2 ^ 63

/-- The fields of Go's `url.URL` that the crawler reads or writes (`Scheme`, `Host`);
`Rest` stands for all the other fields. -/
structure URL where
  Scheme : String
  Host : String
  Rest : String
deriving DecidableEq, Repr

/-- The standard-library functions the crawler calls and that are not embedded:
`urlParse` is `url.Parse` (`none` when it reports an error, in which case the returned
pointer is nil), `urlString` is `(*url.URL).String`, `toLower` is `strings.ToLower`. -/
structure GoStd where
  urlParse : String → Option URL
  urlString : URL → String
  toLower : String → String

/-! ## crawler/parser/parseUtils/parseUtils.go -/

section parseUtils
variable {T : Type} [DecidableEq T]

/-- The function `parseUtils.Contains`: linear search for `wanted`. -/
def Contains : List T → T → Bool
  | [], _ => false
  | item :: rest, wanted => if item = wanted then true else Contains rest wanted

/-- The loop of `RemoveDuplicateItems`: `allKeys` is the key set of the map of items seen
so far, `slice` the output built so far. -/
def RemoveDuplicateItemsLoop : List T → List T → List T → List T
  | [], _, slice => slice
  | item :: rest, allKeys, slice =>
    if Contains allKeys item then RemoveDuplicateItemsLoop rest allKeys slice
    else RemoveDuplicateItemsLoop rest (item :: allKeys) (slice ++ [item])

/-- The function `parseUtils.RemoveDuplicateItems`. -/
def RemoveDuplicateItems (rawSlice : List T) : List T :=
  RemoveDuplicateItemsLoop rawSlice [] []

end parseUtils

/-- Go's `strings.Contains` on character lists: `sub` occurs in `s` as a contiguous block. -/
def containsChars : List Char → List Char → Bool
  | [], sub => sub.isEmpty
  | c :: s, sub => sub.isPrefixOf (c :: s) || containsChars s sub

/-- Go's `strings.Contains`. -/
def stringsContains (s sub : String) : Bool := containsChars s.toList sub.toList

/-- Go's `strings.HasSuffix`. -/
def stringsHasSuffix (s suffix : String) : Bool := suffix.toList.isSuffixOf s.toList

/-- The expression `strings.Split(s, sep)[0]` for a one-character separator: the part of
`s` before the first `sep`, all of `s` when `sep` does not occur. -/
def splitFirst (s : String) (sep : Char) : String :=
  String.mk (s.toList.takeWhile (fun c => c != sep))

/-- The function `parseUtils.RemoveTagsfromUrl`. -/
def RemoveTagsfromUrl (url : String) : String :=
  if stringsContains url "#" then splitFirst url '#' else url

/-! ## control/controller.go -/

/-- The type `control.Command` with its three constants. -/
inductive Command where
  | ScrapeCommand
  | StopCommand
  | WaitCommand
deriving DecidableEq, Repr

/-- The record `control.Job`. -/
structure Job where
  Cmd : Command
  Site : Site
deriving DecidableEq, Repr

/-- The record `control.ControllerConfig`. -/
structure ControllerConfig where
  MaxDepth : Int
  RequireWhitelisting : Bool
  WhitelistedHosts : List String
deriving DecidableEq, Repr

/-- The mutable state of `control.Controller`; `db` is the list of sites passed to
`db.InsertSite` so far, oldest first. -/
structure Controller where
  config : ControllerConfig
  scrapeQueue : List Site
  scrapedSites : List String
  scrapedSitesCount : Int
  db : List Site
  stop : Bool
deriving DecidableEq, Repr

/-- Outcome of a controller method: it returned `r` leaving state `c`, or a run-time panic
was raised in state `c`. -/
inductive Exec (ρ : Type) where
  | done (r : ρ) (c : Controller)
  | panic (c : Controller)

/-- The controller state an execution ended in. -/
def Exec.state {ρ : Type} : Exec ρ → Controller
  | .done _ c => c
  | .panic c => c

/-- The constant `randomIndexThreshold`. -/
def randomIndexThreshold : Nat := 300

/-- The function `NewController`. -/
def NewController (config : ControllerConfig) : Controller :=
  { config := config, scrapeQueue := [], scrapedSites := [], scrapedSitesCount := 0,
    db := [], stop := false }

/-- The method `Controller.Stop`. -/
def Controller.Stop (c : Controller) : Controller := { c with stop := true }

/-- The function `checkIfItemInList`. -/
def checkIfItemInList {T : Type} [DecidableEq T] (item : T) : List T → Bool
  | [] => false
  | listItem :: rest => if listItem = item then true else checkIfItemInList item rest

/-- The method `Controller.AddToQueue`. -/
def Controller.AddToQueue (c : Controller) (site : Site) : Controller :=
  { c with scrapeQueue := c.scrapeQueue ++ [site] }

/-- The method `Controller.SeedCrawlingQueue`. -/
def Controller.SeedCrawlingQueue (c : Controller) : List String → Controller
  | [] => c
  | url :: rest => (c.AddToQueue (Site.target url 0 "")).SeedCrawlingQueue rest

/-- The loop of `Controller.getScrapingJob`. `rand k` is the raw value behind the `k`-th
call of `rand.Intn`, which returns `rand k % n`; `scrapeQueueLength` is the queue length
read once before the loop; indexing past the end of the queue panics. -/
def getScrapingJobLoop (rand : Nat → Nat) (scrapeQueueLength : Nat) :
    Nat → Nat → Controller → Option (Exec Job)
  | 0, _, _ => none
  | fuel + 1, k, c =>
    if c.scrapeQueue.length > 0 then
      let index :=
        if scrapeQueueLength > randomIndexThreshold then rand k % randomIndexThreshold else 0
      match c.scrapeQueue.get? index with
      | none => some (Exec.panic c)
      | some site =>
        let job : Job := { Cmd := Command.ScrapeCommand, Site := site }
        let c1 : Controller :=
          { c with scrapeQueue := c.scrapeQueue.take index ++ c.scrapeQueue.drop (index + 1) }
        if checkIfItemInList job.Site.Url c1.scrapedSites then
          getScrapingJobLoop rand scrapeQueueLength fuel (k + 1) c1
        else some (Exec.done job c1)
    else some (Exec.done { Cmd := Command.WaitCommand, Site := Site.zero } c)

/-- The method `Controller.getScrapingJob`, run with `fuel` loop iterations available. -/
def Controller.getScrapingJobFuel (fuel : Nat) (c : Controller) (rand : Nat → Nat) :
    Option (Exec Job) :=
  getScrapingJobLoop rand c.scrapeQueue.length fuel 0 c

/-- The method `Controller.getScrapingJob`: every iteration that does not leave the loop
removes a queue entry, so one iteration more than the queue length is enough fuel
(`getScrapingJobLoop_total`). -/
def Controller.getScrapingJob (c : Controller) (rand : Nat → Nat) : Option (Exec Job) :=
  c.getScrapingJobFuel (c.scrapeQueue.length + 1) rand

/-- The loop over `site.Links` in `Controller.addLinksToQueue`. With whitelisting on, a link
that `url.Parse` rejects leaves `parsedUrl` nil and `parsedUrl.Host` panics. -/
def addLinksLoop (std : GoStd) (site : Site) (depth : Int) : List String → Controller → Exec Unit
  | [], c => Exec.done () c
  | link :: rest, c =>
    if checkIfItemInList link c.scrapedSites then addLinksLoop std site depth rest c
    else
      let parsedUrl := std.urlParse link
      if c.config.RequireWhitelisting then
        match parsedUrl with
        | none => Exec.panic c
        | some u =>
          if !Contains c.config.WhitelistedHosts u.Host then addLinksLoop std site depth rest c
          else addLinksLoop std site depth rest (c.AddToQueue (Site.target link depth site.Url))
      else addLinksLoop std site depth rest (c.AddToQueue (Site.target link depth site.Url))

/-- The method `Controller.addLinksToQueue`. -/
def Controller.addLinksToQueue (std : GoStd) (c : Controller) (site : Site) : Exec Unit :=
  let depth := wrapInt (site.Depth + 1)
  if c.config.MaxDepth > -1 ∧ depth > c.config.MaxDepth then Exec.done () c
  else addLinksLoop std site depth site.Links c

/-- The method `Controller.submitResult` (`logStatus` only writes to the log). -/
def Controller.submitResult (std : GoStd) (c : Controller) (site : Site) : Exec Unit :=
  let c1 : Controller := { c with scrapedSites := c.scrapedSites ++ [site.Url] }
  let c2 : Controller :=
    if site.Err = none then
      { c1 with db := c1.db ++ [site], scrapedSitesCount := wrapInt (c1.scrapedSitesCount + 1) }
    else c1
  c2.addLinksToQueue std site

/-- The state `submitResult` reaches before it calls `addLinksToQueue`. -/
def recorded (c : Controller) (site : Site) : Controller :=
  let c1 : Controller := { c with scrapedSites := c.scrapedSites ++ [site.Url] }
  if site.Err = none then
    { c1 with db := c1.db ++ [site], scrapedSitesCount := wrapInt (c1.scrapedSitesCount + 1) }
  else c1

/-- The `JobRequestChannel` case of `Controller.serve`: the job sent back on `JobChannel`. -/
def Controller.serveJobRequest (c : Controller) (rand : Nat → Nat) : Option (Exec Job) :=
  if c.stop then some (Exec.done { Cmd := Command.StopCommand, Site := Site.zero } c)
  else c.getScrapingJob rand

/-! ## crawler/parser/htmlParser/htmlParser.go -/

/-- The token kinds of `golang.org/x/net/html` other than `ErrorToken`; the error token is
what the tokenizer reports once its input is used up. -/
inductive TokenType where
  | TextToken
  | StartTagToken
  | EndTagToken
  | SelfClosingTagToken
  | CommentToken
  | DoctypeToken
deriving DecidableEq, Repr

/-- The record `html.Attribute`. -/
structure Attribute where
  Namespace : String
  Key : String
  Val : String
deriving DecidableEq, Repr

/-- The record `html.Token`; `Type_` is the field `Type`. -/
structure Token where
  Type_ : TokenType
  Data : String
  Attr : List Attribute
deriving DecidableEq, Repr

/-- The tokenizer, as the list of tokens it has yet to deliver. `Next` on the empty list
reports `ErrorToken` (here `none`) and leaves the tokenizer as it is, so every further read
reports it again. -/
def tokenizerNext : List Token → Option Token × List Token
  | [] => (none, [])
  | t :: rest => (some t, rest)

/-- The table `textTokenStartTags`. -/
def textTokenStartTags : List String :=
  ["p", "h", "h1", "h2", "h3", "h4", "h5", "h6", "strong", "b", "em", "i", "u", "s", "sub",
   "sup", "blockquote", "cite", "code", "pre", "title", "span"]

/-- The table `metaContentTags`. -/
def metaContentTags : List String := ["description", "keywords", "author"]

/-- Go's `unicode.IsSpace`. -/
def unicodeIsSpace (c : Char) : Bool :=
  let n := c.toNat
  (9 ≤ n && n ≤ 13) || n == 32 || n == 0x85 || n == 0xA0 || n == 0x1680 ||
  (0x2000 ≤ n && n ≤ 0x200A) || n == 0x2028 || n == 0x2029 || n == 0x202F || n == 0x205F ||
  n == 0x3000

/-- Go's `strings.TrimSpace`. -/
def stringsTrimSpace (s : String) : String :=
  String.mk ((s.toList.dropWhile unicodeIsSpace).reverse.dropWhile unicodeIsSpace).reverse

/-- The loop of `parseHref` over the attributes of the token. -/
def parseHrefLoop : List Attribute → String
  | [] => ""
  | attr :: rest =>
    if attr.Key = "href" then
      if stringsContains attr.Val "mailto" then "" else RemoveTagsfromUrl attr.Val
    else parseHrefLoop rest

/-- The function `parseHref`. -/
def parseHref (token : Token) : String := parseHrefLoop token.Attr

/-- The loop of `parseMeta` over the attributes of the token, with the flag `usable`. -/
def parseMetaLoop : List Attribute → Bool → String
  | [], _ => ""
  | attr :: rest, usable =>
    if Contains metaContentTags attr.Key then parseMetaLoop rest true
    else if attr.Key = "content" then
      if usable then attr.Val else parseMetaLoop rest usable
    else parseMetaLoop rest usable

/-- The function `parseMeta`. -/
def parseMeta (token : Token) : String := parseMetaLoop token.Attr false

mutual

/-- The method `HtmlParser.parseText`: the parser state is the tokenizer and the site. Any
token that is neither text nor a start tag, the error token included, is passed over and
the loop reads on. -/
def parseText : Nat → List Token → Site → Option (List Token × Site)
  | 0, _, _ => none
  | fuel + 1, toks, site =>
    match tokenizerNext toks with
    | (none, rest) => parseText fuel rest site
    | (some token, rest) =>
      if token.Type_ = TokenType.TextToken then
        let content := stringsTrimSpace token.Data
        if content ≠ "" then some (rest, { site with Text := site.Text ++ [content] })
        else some (rest, site)
      else if token.Type_ = TokenType.StartTagToken then
        match parseStartTagToken fuel token rest site with
        | none => none
        | some (rest1, site1) => parseText fuel rest1 site1
      else parseText fuel rest site

/-- The method `HtmlParser.parseStartTagToken`. -/
def parseStartTagToken : Nat → Token → List Token → Site → Option (List Token × Site)
  | 0, _, _, _ => none
  | fuel + 1, token, toks, site =>
    if token.Data = "a" then
      let url := parseHref token
      if url ≠ "" then some (toks, { site with Links := site.Links ++ [url] })
      else some (toks, site)
    else if token.Data = "meta" then
      let metadata := parseMeta token
      if metadata ≠ "" then some (toks, { site with Text := site.Text ++ [metadata] })
      else some (toks, site)
    else if Contains textTokenStartTags token.Data then parseText fuel toks site
    else some (toks, site)

end

/-- The loop of `HtmlParser.Parse`. -/
def parseLoop : Nat → List Token → Site → Option Site
  | 0, _, _ => none
  | fuel + 1, toks, site =>
    match tokenizerNext toks with
    | (none, _) => some site
    | (some token, rest) =>
      if token.Type_ = TokenType.StartTagToken then
        match parseStartTagToken fuel token rest site with
        | none => none
        | some (rest1, site1) => parseLoop fuel rest1 site1
      else if Contains textTokenStartTags token.Data then
        match parseText fuel rest site with
        | none => none
        | some (rest1, site1) => parseLoop fuel rest1 site1
      else parseLoop fuel rest site

/-- The method `HtmlParser.Parse` on a body that tokenizes to `toks`, run with `fuel` steps
available: `some site` is the populated site it returns with, `none` means it has not
returned within `fuel` steps. -/
def HtmlParser.Parse (fuel : Nat) (toks : List Token) (site : Site) : Option Site :=
  parseLoop fuel toks site

/-! ## crawler/parser/textParser/textParser.go -/

/-- The method `TextParser.Parse`; `body` is what `io.ReadAll` returns, `none` when the
read fails. -/
def TextParser.Parse (body : Option String) (site : Site) : Site :=
  match body with
  | none => site
  | some binary => { site with Text := [binary] }

/-! ## crawler/unparseableFileSuffixes.go and crawler/crawler.go -/

/-- The table `UnparseableFileSuffixes`. -/
def UnparseableFileSuffixes : List String :=
  [".jpg", ".jpeg", ".png", ".img", ".svg", ".gif",
   ".pdf", ".doc", ".docx", ".xls", ".xlsx", ".ppt", ".pptx",
   ".wav", ".mp3", ".mp4", ".avi", ".mov",
   ".zip", ".tar", ".gz", ".rar", ".7z",
   ".exe", ".dll", ".bin", ".jar",
   ".iso", ".war", ".ear", ".class", ".o", ".obj", ".so", ".a", ".lib", ".rpm", ".deb",
   ".apk", ".ipa", ".dmg", ".pkg", ".app", ".msi",
   ".bmp", ".tif", ".tiff", ".odt", ".ods", ".odp", ".wmv", ".flv", ".sys", ".ini", ".bak",
   ".tmp", ".swp", ".dat", ".db", ".sql", ".rtf", ".ott", ".pot", ".sldx", ".sldm", ".ppsx",
   ".ppsm", ".docm", ".dotm", ".xlsm", ".xltx", ".xltm", ".xhtml", ".xlam", ".ppam", ".docb",
   ".mht", ".mhtml", ".eml", ".msg", ".oft", ".vcf", ".ics", ".aar", ".pyc", ".pyd", ".pdb",
   ".dylib", ".msp", ".mst", ".reg",
   ".bat", ".sh", ".cmd", ".ps1", ".bash", ".zsh", ".csh", ".tcsh",
   ".ksh", ".awk", ".sed",
   ".gpx", ".kml", ".kmz", ".srt", ".sub", ".ass", ".ssa", ".vtt", ".sbv", ".mpsub", ".lrc",
   ".ttml", ".dfxp", ".smi", ".xslt", ".xsd", ".wsdl", ".soap", ".protobuf", ".thrift",
   ".avro", ".msgpack", ".cbor", ".pickle", ".dill", ".joblib", ".hdf5", ".pkl", ".bz2",
   ".xz", ".lz4", ".zstd",
   "wp-login.php", "wp-admin"]

/-- The text that `removeUnparsableUrls` tests against the suffix table: the lower-cased
link, cut at its first question mark. -/
def cleanUrl (std : GoStd) (url : String) : String :=
  let lowered := std.toLower url
  if stringsContains lowered "?" then splitFirst lowered '?' else lowered

/-- The inner loop of `removeUnparsableUrls`: some suffix of the table ends `cleanUrl`. -/
def hasUnparseableSuffix (cleanUrl : String) : List String → Bool
  | [] => false
  | unparseableSuffix :: rest =>
    if stringsHasSuffix cleanUrl unparseableSuffix then true
    else hasUnparseableSuffix cleanUrl rest

/-- The function `removeUnparsableUrls`. -/
def removeUnparsableUrls (std : GoStd) : List String → List String
  | [] => []
  | url :: rest =>
    if url = "" then removeUnparsableUrls std rest
    else if hasUnparseableSuffix (cleanUrl std url) UnparseableFileSuffixes then
      removeUnparsableUrls std rest
    else url :: removeUnparsableUrls std rest

/-- The function `extendRelativeUrl`: the returned string, and whether the returned error
is non-nil. -/
def extendRelativeUrl (std : GoStd) (relativeUrl parentUrl : String) : String × Bool :=
  match std.urlParse parentUrl with
  | none => ("", true)
  | some parsedParentUrl =>
    match std.urlParse relativeUrl with
    | none => ("", true)
    | some parsedUrl =>
      let parsedUrl1 : URL :=
        if parsedUrl.Host = "" then { parsedUrl with Host := parsedParentUrl.Host }
        else parsedUrl
      let parsedUrl2 : URL :=
        if parsedUrl1.Scheme = "" then { parsedUrl1 with Scheme := parsedParentUrl.Scheme }
        else parsedUrl1
      (std.urlString parsedUrl2, false)

/-- The response as `ParseSite` uses it: the `Content-Type` header, the tokens the HTML
tokenizer draws from the body, and the bytes `io.ReadAll` draws from it (`none` when the
read fails). -/
structure Response where
  ContentType : String
  Tokens : List Token
  Body : Option String
deriving DecidableEq, Repr

/-- The three normalization passes that end `ParseSite`. -/
def normalizeLinks (std : GoStd) (site : Site) : Site :=
  let site1 : Site := { site with Links := RemoveDuplicateItems site.Links }
  let site2 : Site := { site1 with Links := removeUnparsableUrls std site1.Links }
  { site2 with Links := site2.Links.map (fun link => (extendRelativeUrl std link site2.Url).1) }

/-- The function `ParseSite`: the site as it is left and the returned error (`none` for
nil); the whole result is `none` when the HTML parser has not returned within `fuel`
steps. -/
def ParseSite (fuel : Nat) (std : GoStd) (res : Response) (site : Site) :
    Option (Site × Option String) :=
  let contentType := res.ContentType
  if stringsContains contentType "text/html" then
    match HtmlParser.Parse fuel res.Tokens site with
    | none => none
    | some parsed => some (normalizeLinks std { parsed with Type_ := "text/html" }, none)
  else if stringsContains contentType "text/plain" then
    some (normalizeLinks std { TextParser.Parse res.Body site with Type_ := "text/plain" }, none)
  else if stringsContains contentType "text/markdown" then
    some (normalizeLinks std { TextParser.Parse res.Body site with Type_ := "text/markdown" },
      none)
  else if stringsContains contentType "text/csv" then
    some (normalizeLinks std { TextParser.Parse res.Body site with Type_ := "text/csv" }, none)
  else if stringsContains contentType "application/json" then
    some (normalizeLinks std { TextParser.Parse res.Body site with Type_ := "application/json" },
      none)
  else if stringsContains contentType "application/xml" then
    some (normalizeLinks std { TextParser.Parse res.Body site with Type_ := "application/xml" },
      none)
  else
    let err := "no parser for content type: " ++ contentType
    some ({ site with Type_ := contentType, Err := some err }, some err)

/-! ## A concrete standard library for evaluating the definitions -/

/-- A reading of `url.Parse` for evaluation. It agrees with `net/url` on the strings of the
forms `scheme://host/path`, `//host/path` and `/path` written with letters, digits, dots and
slashes, and on strings that begin with a colon, which `url.Parse` rejects. -/
def exampleUrlParse (s : String) : Option URL :=
  let cs := s.toList
  if cs.head? = some ':' then none
  else
    let scheme := cs.takeWhile Char.isAlpha
    let afterScheme := cs.drop scheme.length
    if scheme ≠ [] ∧ [':', '/', '/'].isPrefixOf afterScheme then
      let authority := (afterScheme.drop 3).takeWhile (fun c => c != '/')
      some { Scheme := String.mk (scheme.map Char.toLower), Host := String.mk authority,
             Rest := String.mk ((afterScheme.drop 3).drop authority.length) }
    else if ['/', '/'].isPrefixOf cs then
      let authority := (cs.drop 2).takeWhile (fun c => c != '/')
      some { Scheme := "", Host := String.mk authority,
             Rest := String.mk ((cs.drop 2).drop authority.length) }
    else some { Scheme := "", Host := "", Rest := s }

/-- A reading of `(*url.URL).String` for evaluation, for URLs made of a scheme, a host and
a path. -/
def exampleUrlString (u : URL) : String :=
  (if u.Scheme ≠ "" then u.Scheme ++ ":" else "") ++
  (if (u.Scheme ≠ "" ∨ u.Host ≠ "") ∧ (u.Host ≠ "" ∨ u.Rest ≠ "") then "//" ++ u.Host else "") ++
  (if u.Rest ≠ "" ∧ u.Rest.toList.head? ≠ some '/' ∧ u.Host ≠ "" then "/" else "") ++ u.Rest

/-- The concrete standard library used to evaluate the definitions: `exampleUrlParse`,
`exampleUrlString`, and lower-casing of the letters `A` to `Z`, which is what
`strings.ToLower` does on ASCII text. -/
def exampleStd : GoStd :=
  { urlParse := exampleUrlParse, urlString := exampleUrlString,
    toLower := fun s => String.mk (s.toList.map Char.toLower) }

/-! ## The coordinator as a state machine -/

/-- The events the coordinator reacts to: `SeedCrawlingQueue`, `Stop`, a job request
(with the random source the selection draws from) and a submitted result. -/
inductive Op where
  | seed (urls : List String)
  | stop
  | jobRequest (rand : Nat → Nat)
  | result (site : Site)

/-- One event: the jobs sent on `JobChannel` while handling it and the next state, or the
panic that ends the process. -/
def Controller.step (std : GoStd) (c : Controller) : Op → Option (Exec (List Job))
  | Op.seed urls => some (Exec.done [] (c.SeedCrawlingQueue urls))
  | Op.stop => some (Exec.done [] c.Stop)
  | Op.jobRequest rand =>
    match c.serveJobRequest rand with
    | none => none
    | some (Exec.done job c1) => some (Exec.done [job] c1)
    | some (Exec.panic c1) => some (Exec.panic c1)
  | Op.result site =>
    match c.submitResult std site with
    | Exec.done _ c1 => some (Exec.done [] c1)
    | Exec.panic c1 => some (Exec.panic c1)

/-- What a run of the coordinator leaves behind: the jobs sent on `JobChannel`, in order,
the last state, and whether the run ended in a panic. -/
structure RunResult where
  jobs : List Job
  final : Controller
  panicked : Bool
deriving DecidableEq, Repr

/-- A sequence of events handled one at a time, as `serve` does; a panic ends the run. -/
def Controller.run (std : GoStd) : Controller → List Op → Option RunResult
  | c, [] => some { jobs := [], final := c, panicked := false }
  | c, op :: ops =>
    match c.step std op with
    | none => none
    | some (Exec.panic c1) => some { jobs := [], final := c1, panicked := true }
    | some (Exec.done jobs c1) =>
      match Controller.run std c1 ops with
      | none => none
      | some r => some { r with jobs := jobs ++ r.jobs }

/-- The number of job requests among the events. -/
def jobRequestCount : List Op → Nat
  | [] => 0
  | Op.jobRequest _ :: ops => jobRequestCount ops + 1
  | Op.seed _ :: ops => jobRequestCount ops
  | Op.stop :: ops => jobRequestCount ops
  | Op.result _ :: ops => jobRequestCount ops

/-- The states the coordinator can be in after some run from a new controller. -/
def Reachable (std : GoStd) (config : ControllerConfig) (c : Controller) : Prop :=
  ∃ ops jobs, (NewController config).run std ops =
    some { jobs := jobs, final := c, panicked := false }

/-- The site a crawler hands back for a dispatched job after a successful scrape that
found `links`: the job's site with its links and content type filled in. -/
def scraped (job : Site) (links : List String) : Site :=
  { job with Links := links, Type_ := "text/html" }

/-- What a finished job selection has done to the queue of `c`, given the entries it
discarded on the way: a `Scrape` job took its site out of the queue, a `Wait` job found the
queue drained, a panic lost nothing but the discarded entries. -/
def selectionOutcome (c : Controller) (discarded : List Site) : Exec Job → Prop
  | Exec.done job c1 =>
    (job.Cmd = Command.ScrapeCommand ∧ job.Site.Url ∉ c.scrapedSites ∧
      c.scrapeQueue.Perm (job.Site :: (discarded ++ c1.scrapeQueue))) ∨
    (job = { Cmd := Command.WaitCommand, Site := Site.zero } ∧ c1.scrapeQueue = [] ∧
      c.scrapeQueue.Perm discarded)
  | Exec.panic c1 => c.scrapeQueue.Perm (discarded ++ c1.scrapeQueue)

/-- First-occurrence deduplication as the specification words it: the subsequence of `l`
made of each element's first occurrence, that is, the element at position `i` is kept
exactly when it does not occur before position `i`. -/
def firstOccurrences {T : Type} [DecidableEq T] (l : List T) : List T :=
  (List.range l.length).filterMap (fun i =>
    match l.get? i with
    | some x => if x ∈ l.take i then none else some x
    | none => none)

/-- The suffix filter as the specification words it: the link is non-empty and its
lower-cased text, cut at the first question mark, ends with no entry of
`UnparseableFileSuffixes`. -/
def keptBySuffixFilter (std : GoStd) (url : String) : Prop :=
  url ≠ "" ∧ ∀ suf ∈ UnparseableFileSuffixes,
    ¬ suf.toList <:+ (splitFirst (std.toLower url) '?').toList

instance (std : GoStd) (url : String) : Decidable (keptBySuffixFilter std url) :=
  inferInstanceAs (Decidable (url ≠ "" ∧ ∀ suf ∈ UnparseableFileSuffixes,
    ¬ suf.toList <:+ (splitFirst (std.toLower url) '?').toList))

/-- The text ends in `.png`, each of the three letters in either case. -/
def endsInPng (s : String) : Bool :=
  match s.toList.reverse with
  | c3 :: c2 :: c1 :: '.' :: _ =>
    (c1 == 'p' || c1 == 'P') && (c2 == 'n' || c2 == 'N') && (c3 == 'g' || c3 == 'G')
  | _ => false

/-- What is used of `strings.ToLower`: it maps the text rune by rune through
`unicode.ToLower`, here `f`; on ASCII that turns `A` to `Z` into `a` to `z` and leaves the
rest alone, and no rune outside ASCII is turned into a question mark. -/
def LowersByRune (std : GoStd) (f : Char → Char) : Prop :=
  (∀ s : String, std.toLower s = String.mk (s.toList.map f)) ∧
  (∀ c : Char, c.toNat < 128 → f c = Char.toLower c) ∧
  (∀ c : Char, 128 ≤ c.toNat → f c ≠ '?')

/-- The six content types `ParseSite` has a parser for, in the order it tests them. -/
def supportedContentTypes : List String :=
  ["text/html", "text/plain", "text/markdown", "text/csv", "application/json",
   "application/xml"]

/-- The first of the six supported content types that the header contains, if any. -/
def firstSupportedType (contentType : String) : Option String :=
  supportedContentTypes.find? (fun t => stringsContains contentType t)

/-- The error `ParseSite` builds for a header without a supported content type. -/
def noParserError (contentType : String) : String :=
  "no parser for content type: " ++ contentType

/-- What `parseMeta` yields, said without the loop: the value of the first `content`
attribute that comes after the first attribute whose key is `description`, `keywords` or
`author`; the empty string when there is no such key or no `content` attribute after it. -/
def contentAfterKey (attrs : List Attribute) : String :=
  match attrs.dropWhile (fun attr => !Contains metaContentTags attr.Key) with
  | [] => ""
  | _ :: rest =>
    match rest.find? (fun attr => decide (attr.Key = "content")) with
    | some attr => attr.Val
    | none => ""

/-! ## Concrete inputs -/

/-- A submitted seed site (depth 0) carrying one link. -/
def seedSite : Site :=
  { Site.target "https://a.test/" 0 "" with Links := ["https://a.test/x"] }

/-- A controller that whitelists the host `a.test` and has no depth bound. -/
def whitelistController : Controller :=
  NewController { MaxDepth := -1, RequireWhitelisting := true, WhitelistedHosts := ["a.test"] }

/-- A submitted site with one link on the whitelisted host and one link off it. -/
def twoHostSite : Site :=
  { Site.target "https://a.test/" 0 "" with
    Links := ["https://a.test/x", "https://b.test/y"] }

/-- A controller whose queue holds an already visited entry in front of a fresh one. -/
def visitedFirstController : Controller :=
  { NewController { MaxDepth := -1, RequireWhitelisting := false, WhitelistedHosts := [] } with
    scrapeQueue := [Site.target "https://a.test/" 0 "", Site.target "https://a.test/x" 1 "s"],
    scrapedSites := ["https://a.test/"] }

/-- A random source that always draws 0. -/
def zeroRand : Nat → Nat := fun _ => 0

/-- A configuration without depth bound and without whitelist. -/
def openConfig : ControllerConfig :=
  { MaxDepth := -1, RequireWhitelisting := false, WhitelistedHosts := [] }

/-- The job `Job{Cmd: StopCommand}`. -/
def stopJob : Job := { Cmd := Command.StopCommand, Site := Site.zero }

/-- Two seeds that both link to the page `x`, handled by two workers: both seeds are
dispatched and their results submitted, so `x` is queued twice. -/
def twoParentsOps : List Op :=
  [Op.seed ["https://a.test/1", "https://a.test/2"],
   Op.jobRequest zeroRand,
   Op.jobRequest zeroRand,
   Op.result (scraped (Site.target "https://a.test/1" 0 "") ["https://a.test/x"]),
   Op.result (scraped (Site.target "https://a.test/2" 0 "") ["https://a.test/x"])]

/-- The run `twoParentsOps` continued: both workers ask for a job before either has
submitted, each is sent a copy of `x`, and each submits its result. -/
def raceOps : List Op :=
  twoParentsOps ++
  [Op.jobRequest zeroRand,
   Op.jobRequest zeroRand,
   Op.result (scraped (Site.target "https://a.test/x" 1 "https://a.test/1") []),
   Op.result (scraped (Site.target "https://a.test/x" 1 "https://a.test/2") [])]

/-- The state the run `twoParentsOps` ends in: both seeds recorded, the page `x` queued
twice. -/
def twoParentsState : Controller :=
  { config := openConfig,
    scrapeQueue := [Site.target "https://a.test/x" 1 "https://a.test/1",
                    Site.target "https://a.test/x" 1 "https://a.test/2"],
    scrapedSites := ["https://a.test/1", "https://a.test/2"],
    scrapedSitesCount := 2,
    db := [scraped (Site.target "https://a.test/1" 0 "") ["https://a.test/x"],
           scraped (Site.target "https://a.test/2" 0 "") ["https://a.test/x"]],
    stop := false }

/-- The tokens of the body `<p>`: one start tag, then end of input. -/
def unclosedParagraph : List Token :=
  [{ Type_ := TokenType.StartTagToken, Data := "p", Attr := [] }]

/-- The tokens of the body `<p>text</p></body></html>`. -/
def minifiedPage : List Token :=
  [{ Type_ := TokenType.StartTagToken, Data := "p", Attr := [] },
   { Type_ := TokenType.TextToken, Data := "text", Attr := [] },
   { Type_ := TokenType.EndTagToken, Data := "p", Attr := [] },
   { Type_ := TokenType.EndTagToken, Data := "body", Attr := [] },
   { Type_ := TokenType.EndTagToken, Data := "html", Attr := [] }]

/-- An HTML response with the body
`<a href="/page2"></a><a href="https://a.test/page2"></a>`. -/
def twoAnchorsResponse : Response :=
  { ContentType := "text/html; charset=utf-8",
    Tokens :=
      [{ Type_ := TokenType.StartTagToken, Data := "a",
         Attr := [{ Namespace := "", Key := "href", Val := "/page2" }] },
       { Type_ := TokenType.EndTagToken, Data := "a", Attr := [] },
       { Type_ := TokenType.StartTagToken, Data := "a",
         Attr := [{ Namespace := "", Key := "href", Val := "https://a.test/page2" }] },
       { Type_ := TokenType.EndTagToken, Data := "a", Attr := [] }],
    Body := none }

/-- The target `https://a.test` as the coordinator dispatches it. -/
def rootTarget : Site := Site.target "https://a.test" 0 ""

/-- The target `https://a.test` as `ParseSite` leaves it on `twoAnchorsResponse`. -/
def twoAnchorsParsed : Site :=
  { Site.target "https://a.test" 0 "" with
    Links := ["https://a.test/page2", "https://a.test/page2"], Type_ := "text/html" }

/-- A link list with an image link in capitals followed by a query string, and a page. -/
def imageAndPage : List String := ["/img/Logo.PNG?x=1", "/page"]

/-- An HTML response with the body `<p>`. -/
def unclosedParagraphResponse : Response :=
  { ContentType := "text/html", Tokens := unclosedParagraph, Body := none }

/-- A queue of 301 entries for a page that has been visited in the meantime, as left by
301 pages that each linked to it before its result came in. -/
def staleQueueController : Controller :=
  { NewController openConfig with
    scrapeQueue := List.replicate 301 (Site.target "https://a.test/about" 1 "https://a.test/"),
    scrapedSites := ["https://a.test/about"] }

/-- A random source whose first two draws are 0 and whose third draw is 299. -/
def thirdDrawHigh : Nat → Nat := fun k => if k = 2 then 299 else 0

/-- The tag `<meta content="about cats" description="">`: the `content` attribute comes
before the recognized key. -/
def contentFirstMeta : Token :=
  { Type_ := TokenType.StartTagToken, Data := "meta",
    Attr := [{ Namespace := "", Key := "content", Val := "about cats" },
             { Namespace := "", Key := "description", Val := "" }] }

/-- The tag `<meta description="" content="about cats">`: the recognized key comes first. -/
def keyFirstMeta : Token :=
  { Type_ := TokenType.StartTagToken, Data := "meta",
    Attr := [{ Namespace := "", Key := "description", Val := "" },
             { Namespace := "", Key := "content", Val := "about cats" }] }

/-- After `Stop`: a job request, a submitted result, and another job request. -/
def afterStopOps : List Op :=
  [Op.jobRequest zeroRand, Op.result seedSite, Op.jobRequest zeroRand]

/-! ## Shared lemmas -/

theorem Contains_iff {T : Type} [DecidableEq T] (list : List T) (wanted : T) :
    Contains list wanted = true ↔ wanted ∈ list := by
  induction list with
  | nil => simp [Contains]
  | cons item rest ih =>
    by_cases h : item = wanted
    · simp [Contains, h]
    · simp [Contains, h, ih, Ne.symm h]

theorem checkIfItemInList_iff {T : Type} [DecidableEq T] (item : T) (list : List T) :
    checkIfItemInList item list = true ↔ item ∈ list := by
  induction list with
  | nil => simp [checkIfItemInList]
  | cons listItem rest ih =>
    by_cases h : listItem = item
    · simp [checkIfItemInList, h]
    · simp [checkIfItemInList, h, ih, Ne.symm h]

/-- What the loop of `addLinksToQueue` does to a state: it only appends to the queue, and
every appended target is built from a link of the list that is not visited and, under
whitelisting, parses to a whitelisted host. -/
theorem addLinksLoop_spec (std : GoStd) (site : Site) (depth : Int) (links : List String) :
    ∀ c : Controller, ∃ new : List Site,
      (addLinksLoop std site depth links c).state =
        { c with scrapeQueue := c.scrapeQueue ++ new } ∧
      ∀ t ∈ new, t = Site.target t.Url depth site.Url ∧ t.Url ∈ links ∧
        t.Url ∉ c.scrapedSites ∧
        (c.config.RequireWhitelisting = true →
          ∃ u, std.urlParse t.Url = some u ∧ u.Host ∈ c.config.WhitelistedHosts) := by
  induction links with
  | nil => intro c; exact ⟨[], by simp [addLinksLoop, Exec.state], by simp⟩
  | cons link rest ih =>
    intro c
    have keep : ∀ new : List Site,
        (∀ t ∈ new, t = Site.target t.Url depth site.Url ∧ t.Url ∈ rest ∧
          t.Url ∉ c.scrapedSites ∧ (c.config.RequireWhitelisting = true →
            ∃ u, std.urlParse t.Url = some u ∧ u.Host ∈ c.config.WhitelistedHosts)) →
        ∀ t ∈ new, t = Site.target t.Url depth site.Url ∧ t.Url ∈ link :: rest ∧
          t.Url ∉ c.scrapedSites ∧ (c.config.RequireWhitelisting = true →
            ∃ u, std.urlParse t.Url = some u ∧ u.Host ∈ c.config.WhitelistedHosts) := by
      intro new h t ht
      obtain ⟨h1, h2, h3, h4⟩ := h t ht
      exact ⟨h1, List.mem_cons_of_mem _ h2, h3, h4⟩
    have add : (∀ hw : c.config.RequireWhitelisting = true,
          ∃ u, std.urlParse link = some u ∧ u.Host ∈ c.config.WhitelistedHosts) →
        link ∉ c.scrapedSites →
        ∃ new : List Site,
          (addLinksLoop std site depth rest
              (c.AddToQueue (Site.target link depth site.Url))).state =
            { c with scrapeQueue := c.scrapeQueue ++ new } ∧
          ∀ t ∈ new, t = Site.target t.Url depth site.Url ∧ t.Url ∈ link :: rest ∧
            t.Url ∉ c.scrapedSites ∧ (c.config.RequireWhitelisting = true →
              ∃ u, std.urlParse t.Url = some u ∧ u.Host ∈ c.config.WhitelistedHosts) := by
      intro hw hv
      obtain ⟨new, hs, hn⟩ := ih (c.AddToQueue (Site.target link depth site.Url))
      refine ⟨Site.target link depth site.Url :: new, ?_, ?_⟩
      · rw [hs]; simp [Controller.AddToQueue]
      · intro t ht
        rcases List.mem_cons.mp ht with rfl | ht
        · exact ⟨rfl, by simp [Site.target], by simpa [Site.target] using hv,
            by simpa [Site.target] using hw⟩
        · exact keep new (by simpa [Controller.AddToQueue] using hn) t ht
    unfold addLinksLoop
    by_cases hv : checkIfItemInList link c.scrapedSites = true
    · rw [if_pos hv]
      obtain ⟨new, hs, hn⟩ := ih c
      exact ⟨new, hs, keep new hn⟩
    · rw [if_neg hv]
      have hv1 : link ∉ c.scrapedSites := fun h => hv ((checkIfItemInList_iff _ _).mpr h)
      by_cases hw : c.config.RequireWhitelisting = true
      · rw [if_pos hw]
        cases hp : std.urlParse link with
        | none => exact ⟨[], by simp [Exec.state], by simp⟩
        | some u =>
          by_cases hc : Contains c.config.WhitelistedHosts u.Host = true
          · dsimp only
            rw [hc, if_neg (by decide)]
            exact add (fun _ => ⟨u, hp, (Contains_iff _ _).mp hc⟩) hv1
          · rw [Bool.not_eq_true] at hc
            dsimp only
            rw [hc, if_pos (by decide)]
            obtain ⟨new, hs, hn⟩ := ih c
            exact ⟨new, hs, keep new hn⟩
      · rw [if_neg hw]
        exact add (fun h => absurd h hw) hv1

/-- What `addLinksToQueue` does to a state: nothing but appending targets at the child depth
that pass the depth gate, the visited check and the whitelist. -/
theorem addLinksToQueue_spec (std : GoStd) (c : Controller) (site : Site) :
    ∃ new : List Site,
      (c.addLinksToQueue std site).state = { c with scrapeQueue := c.scrapeQueue ++ new } ∧
      ∀ t ∈ new, t = Site.target t.Url (wrapInt (site.Depth + 1)) site.Url ∧
        t.Url ∈ site.Links ∧ t.Url ∉ c.scrapedSites ∧
        (c.config.RequireWhitelisting = true →
          ∃ u, std.urlParse t.Url = some u ∧ u.Host ∈ c.config.WhitelistedHosts) ∧
        (c.config.MaxDepth > -1 → wrapInt (site.Depth + 1) ≤ c.config.MaxDepth) := by
  unfold Controller.addLinksToQueue
  by_cases hg : c.config.MaxDepth > -1 ∧ wrapInt (site.Depth + 1) > c.config.MaxDepth
  · simp only [hg, and_self, if_true]
    exact ⟨[], by simp [Exec.state], by simp⟩
  · simp only [hg, if_false]
    obtain ⟨new, hs, hn⟩ := addLinksLoop_spec std site (wrapInt (site.Depth + 1)) site.Links c
    refine ⟨new, hs, fun t ht => ?_⟩
    obtain ⟨h1, h2, h3, h4⟩ := hn t ht
    refine ⟨h1, h2, h3, h4, fun hm => ?_⟩
    by_contra hlt
    exact hg ⟨hm, lt_of_not_ge hlt⟩

/-- What `submitResult` does to a state: it records the result and then only appends to the
queue, under the conditions of `addLinksToQueue_spec`. -/
theorem submitResult_spec (std : GoStd) (c : Controller) (site : Site) :
    ∃ new : List Site,
      (c.submitResult std site).state =
        { recorded c site with scrapeQueue := c.scrapeQueue ++ new } ∧
      ∀ t ∈ new, t = Site.target t.Url (wrapInt (site.Depth + 1)) site.Url ∧
        t.Url ∈ site.Links ∧ t.Url ∉ c.scrapedSites ++ [site.Url] ∧
        (c.config.RequireWhitelisting = true →
          ∃ u, std.urlParse t.Url = some u ∧ u.Host ∈ c.config.WhitelistedHosts) ∧
        (c.config.MaxDepth > -1 → wrapInt (site.Depth + 1) ≤ c.config.MaxDepth) := by
  have h := addLinksToQueue_spec std (recorded c site) site
  have hr : c.submitResult std site = (recorded c site).addLinksToQueue std site := rfl
  rw [hr]
  by_cases he : site.Err = none
  · simpa [recorded, he] using h
  · simpa [recorded, he] using h

/-! ## C1: depth bound -/

/-- C2: when `RequireWhitelisting` is true, every target that `submitResult` (and
`addLinksToQueue`) appends to the frontier has a URL that `url.Parse` accepts and whose
host is a member of `WhitelistedHosts`. -/
theorem C2_whitelist_enforcement (std : GoStd) (c : Controller) (site : Site)
    (hW : c.config.RequireWhitelisting = true) :
    (∃ new : List Site,
      (c.submitResult std site).state.scrapeQueue = c.scrapeQueue ++ new ∧
      ∀ t ∈ new, ∃ u, std.urlParse t.Url = some u ∧ u.Host ∈ c.config.WhitelistedHosts) ∧
    (∃ new : List Site,
      (c.addLinksToQueue std site).state.scrapeQueue = c.scrapeQueue ++ new ∧
      ∀ t ∈ new, ∃ u, std.urlParse t.Url = some u ∧ u.Host ∈ c.config.WhitelistedHosts) := by
  obtain ⟨new1, hs1, hn1⟩ := submitResult_spec std c site
  obtain ⟨new2, hs2, hn2⟩ := addLinksToQueue_spec std c site
  exact ⟨⟨new1, by rw [hs1], fun t ht => (hn1 t ht).2.2.2.1 hW⟩,
    ⟨new2, by rw [hs2], fun t ht => (hn2 t ht).2.2.2.1 hW⟩⟩

/-- C2 at a concrete input: with `a.test` whitelisted, a site linking to `a.test` and to
`b.test` is submitted. -/
theorem C2_whitelist_enforcement_witness :
    whitelistController.config.RequireWhitelisting = true ∧
    ∃ new : List Site,
      (whitelistController.submitResult exampleStd twoHostSite).state.scrapeQueue =
        whitelistController.scrapeQueue ++ new ∧
      ∀ t ∈ new, ∃ u, exampleStd.urlParse t.Url = some u ∧
        u.Host ∈ whitelistController.config.WhitelistedHosts :=
  ⟨rfl, (C2_whitelist_enforcement exampleStd whitelistController twoHostSite rfl).1⟩

/-! ## C4: job selection -/

/-- Taking the entry at index `i` out of a list: the list is the entry plus what is left,
what is left keeps its order, and is one shorter. -/
theorem remove_at_spec {α : Type} : ∀ (l : List α) (i : Nat) (x : α), l.get? i = some x →
    l.Perm (x :: (l.take i ++ l.drop (i + 1))) ∧ (l.take i ++ l.drop (i + 1)).Sublist l ∧
    (l.take i ++ l.drop (i + 1)).length + 1 = l.length ∧ x ∈ l := by
  intro l
  induction l with
  | nil => intro i x h; simp at h
  | cons a l ih =>
    intro i x h
    cases i with
    | zero =>
      simp only [List.get?_cons_zero, Option.some.injEq] at h
      subst h
      simp
    | succ i =>
      simp only [List.get?_cons_succ] at h
      obtain ⟨h1, h2, h3, h4⟩ := ih i x h
      refine ⟨?_, ?_, ?_, List.mem_cons_of_mem _ h4⟩
      · simp only [List.take_succ_cons, List.drop_succ_cons, List.cons_append]
        exact (List.Perm.cons a h1).trans (List.Perm.swap x a _)
      · simp only [List.take_succ_cons, List.drop_succ_cons, List.cons_append]
        exact List.Sublist.cons₂ a h2
      · simp only [List.take_succ_cons, List.drop_succ_cons, List.cons_append,
          List.length_cons]
        omega

/-- The selection loop, when it ends: only the queue has changed, what remains of it is in
its old order, and the entries that left it are the returned one and visited ones. -/
theorem getScrapingJobLoop_spec (rand : Nat → Nat) (len : Nat) :
    ∀ (fuel k : Nat) (c : Controller) (e : Exec Job),
      getScrapingJobLoop rand len fuel k c = some e →
      e.state = { c with scrapeQueue := e.state.scrapeQueue } ∧
      e.state.scrapeQueue.Sublist c.scrapeQueue ∧
      ∃ discarded : List Site, (∀ d ∈ discarded, d.Url ∈ c.scrapedSites) ∧
        selectionOutcome c discarded e := by
  intro fuel
  induction fuel with
  | zero => intro k c e h; simp [getScrapingJobLoop] at h
  | succ fuel ih =>
    intro k c e h
    unfold getScrapingJobLoop at h
    by_cases hlen : c.scrapeQueue.length > 0
    · rw [if_pos hlen] at h
      dsimp only at h
      generalize hidx :
        (if len > randomIndexThreshold then rand k % randomIndexThreshold else 0) = index at h
      cases hget : c.scrapeQueue.get? index with
      | none =>
        rw [hget] at h
        dsimp only at h
        cases h
        exact ⟨rfl, List.Sublist.refl _, [], by simp, by simp [selectionOutcome, Exec.state]⟩
      | some site =>
        rw [hget] at h
        dsimp only at h
        obtain ⟨hperm, hsub, -, -⟩ := remove_at_spec c.scrapeQueue index site hget
        by_cases hv : checkIfItemInList site.Url c.scrapedSites = true
        · rw [if_pos hv] at h
          obtain ⟨h1, h2, discarded, h3, h4⟩ := ih (k + 1) _ e h
          refine ⟨?_, h2.trans hsub, site :: discarded, ?_, ?_⟩
          · rw [h1]
          · intro d hd
            rcases List.mem_cons.mp hd with rfl | hd
            · exact (checkIfItemInList_iff _ _).mp hv
            · exact h3 d hd
          · cases e with
            | done job c1 =>
              rcases h4 with ⟨ha, hb, hc⟩ | ⟨ha, hb, hc⟩
              · refine Or.inl ⟨ha, hb, ?_⟩
                dsimp only at hc
                exact hperm.trans (((List.Perm.cons site hc).trans
                  (List.Perm.swap _ _ _)))
              · refine Or.inr ⟨ha, hb, ?_⟩
                dsimp only at hc
                exact hperm.trans (List.Perm.cons site hc)
            | panic c1 =>
              simp only [selectionOutcome] at h4 ⊢
              exact hperm.trans (List.Perm.cons site h4)
        · rw [if_neg hv] at h
          cases h
          refine ⟨rfl, hsub, [], by simp, Or.inl ⟨rfl, ?_, ?_⟩⟩
          · exact fun hm => hv ((checkIfItemInList_iff _ _).mpr hm)
          · simpa using hperm
    · rw [if_neg hlen] at h
      cases h
      have hnil : c.scrapeQueue = [] := by
        cases hq : c.scrapeQueue with
        | nil => rfl
        | cons a l => rw [hq] at hlen; simp at hlen
      exact ⟨rfl, List.Sublist.refl _, [], by simp,
        Or.inr ⟨rfl, hnil, by rw [hnil]⟩⟩

/-- The selection loop ends, by return or by panic, as soon as it has more fuel than the
queue has entries. -/
theorem getScrapingJobLoop_total (rand : Nat → Nat) (len : Nat) :
    ∀ (fuel k : Nat) (c : Controller), c.scrapeQueue.length < fuel →
      ∃ e, getScrapingJobLoop rand len fuel k c = some e := by
  intro fuel
  induction fuel with
  | zero => intro k c h; omega
  | succ fuel ih =>
    intro k c h
    unfold getScrapingJobLoop
    by_cases hlen : c.scrapeQueue.length > 0
    · rw [if_pos hlen]
      dsimp only
      generalize hidx :
        (if len > randomIndexThreshold then rand k % randomIndexThreshold else 0) = index
      cases hget : c.scrapeQueue.get? index with
      | none => exact ⟨_, rfl⟩
      | some site =>
        dsimp only
        obtain ⟨-, -, hl, -⟩ := remove_at_spec c.scrapeQueue index site hget
        by_cases hv : checkIfItemInList site.Url c.scrapedSites = true
        · rw [if_pos hv]
          exact ih (k + 1) _ (by dsimp only; omega)
        · rw [if_neg hv]
          exact ⟨_, rfl⟩
    · rw [if_neg hlen]
      exact ⟨_, rfl⟩

/-- C4: when `getScrapingJob` returns, with whatever fuel, queue and random draws, the
visited set is unchanged and the remaining queue keeps its order; a `Scrape` job carries a
site that was in the queue, has been taken out of it and whose URL is not visited; every
other entry that left the queue has a visited URL; a `Wait` job leaves the queue empty;
and with one step more than the queue is long the call always ends. -/
theorem C4_visited_never_dispatched (c : Controller) (rand : Nat → Nat) (fuel : Nat)
    (job : Job) (c1 : Controller)
    (h : c.getScrapingJobFuel fuel rand = some (Exec.done job c1)) :
    c1.scrapedSites = c.scrapedSites ∧ c1.scrapeQueue.Sublist c.scrapeQueue ∧
    (∃ discarded : List Site, (∀ d ∈ discarded, d.Url ∈ c.scrapedSites) ∧
      ((job.Cmd = Command.ScrapeCommand ∧ job.Site ∈ c.scrapeQueue ∧
          job.Site.Url ∉ c.scrapedSites ∧
          c.scrapeQueue.Perm (job.Site :: (discarded ++ c1.scrapeQueue))) ∨
        (job.Cmd = Command.WaitCommand ∧ c1.scrapeQueue = [] ∧
          c.scrapeQueue.Perm discarded))) ∧
    (job.Cmd = Command.WaitCommand → c1.scrapeQueue = []) ∧
    job.Cmd ≠ Command.StopCommand ∧
    (∃ e, c.getScrapingJob rand = some e) := by
  obtain ⟨h1, h2, discarded, h3, h4⟩ := getScrapingJobLoop_spec rand _ fuel 0 c _ h
  have hs : c1.scrapedSites = c.scrapedSites := by
    have := congrArg Controller.scrapedSites h1
    simpa [Exec.state] using this
  refine ⟨hs, h2, ⟨discarded, h3, ?_⟩, ?_, ?_,
    getScrapingJobLoop_total rand _ _ 0 c (Nat.lt_succ_self _)⟩
  · rcases h4 with ⟨ha, hb, hc⟩ | ⟨ha, hb, hc⟩
    · exact Or.inl ⟨ha, hc.symm.subset (List.mem_cons_self _ _), hb, hc⟩
    · exact Or.inr ⟨by rw [ha], hb, hc⟩
  · intro hw
    rcases h4 with ⟨ha, -, -⟩ | ⟨-, hb, -⟩
    · rw [ha] at hw; cases hw
    · exact hb
  · rcases h4 with ⟨ha, -, -⟩ | ⟨ha, -, -⟩
    · rw [ha]; decide
    · rw [ha]; decide

/-- C4 at a concrete input: the queue holds a visited entry in front of a fresh one; the
visited entry is discarded and the fresh one dispatched. -/
theorem C4_visited_never_dispatched_witness :
    visitedFirstController.getScrapingJobFuel 2 zeroRand =
      some (Exec.done { Cmd := Command.ScrapeCommand,
                        Site := Site.target "https://a.test/x" 1 "s" }
        { visitedFirstController with scrapeQueue := [] }) ∧
    (Site.target "https://a.test/x" 1 "s").Url ∉ visitedFirstController.scrapedSites :=
  have h : visitedFirstController.getScrapingJobFuel 2 zeroRand =
      some (Exec.done { Cmd := Command.ScrapeCommand,
                        Site := Site.target "https://a.test/x" 1 "s" }
        { visitedFirstController with scrapeQueue := [] }) := by
    simp [Controller.getScrapingJobFuel, getScrapingJobLoop, visitedFirstController,
      NewController, checkIfItemInList, Site.target, Site.zero, randomIndexThreshold]
  ⟨h, by
    obtain ⟨-, -, ⟨discarded, -, hd⟩, -⟩ :=
      C4_visited_never_dispatched visitedFirstController zeroRand 2 _ _ h
    rcases hd with ⟨-, -, hb, -⟩ | ⟨ha, -, -⟩
    · exact hb
    · cases ha⟩

/-! ## C3: persistence per URL -/

/-- C3 fails on the run `raceOps`: every submitted site was dispatched before, the two
copies of `https://a.test/x` are both dispatched because neither has been submitted when
the second is selected, and `InsertSite` is called twice for that URL. -/
theorem C3_insert_twice :
    ((NewController openConfig).run exampleStd raceOps).map
        (fun r => (r.jobs, r.panicked, r.final.db.map Site.Url)) =
      some ([{ Cmd := Command.ScrapeCommand, Site := Site.target "https://a.test/1" 0 "" },
             { Cmd := Command.ScrapeCommand, Site := Site.target "https://a.test/2" 0 "" },
             { Cmd := Command.ScrapeCommand,
               Site := Site.target "https://a.test/x" 1 "https://a.test/1" },
             { Cmd := Command.ScrapeCommand,
               Site := Site.target "https://a.test/x" 1 "https://a.test/2" }],
            false,
            ["https://a.test/1", "https://a.test/2", "https://a.test/x", "https://a.test/x"]) := by
  rfl

/-! ## C5: duplicates in the frontier -/

/-- C5 as stated fails: the run `twoParentsOps` from a new controller (two seeds are
dispatched, both link to `https://a.test/x`, both results are submitted) reaches a state
whose frontier holds two entries with that URL. -/
theorem C5_counterexample :
    (NewController openConfig).run exampleStd twoParentsOps =
      some { jobs := [{ Cmd := Command.ScrapeCommand, Site := Site.target "https://a.test/1" 0 "" },
                      { Cmd := Command.ScrapeCommand, Site := Site.target "https://a.test/2" 0 "" }],
             final := twoParentsState, panicked := false } ∧
    Reachable exampleStd openConfig twoParentsState ∧
    twoParentsState.scrapeQueue.map Site.Url = ["https://a.test/x", "https://a.test/x"] ∧
    ¬ (twoParentsState.scrapeQueue.map Site.Url).Nodup := by
  have h : (NewController openConfig).run exampleStd twoParentsOps =
      some { jobs := [{ Cmd := Command.ScrapeCommand, Site := Site.target "https://a.test/1" 0 "" },
                      { Cmd := Command.ScrapeCommand, Site := Site.target "https://a.test/2" 0 "" }],
             final := twoParentsState, panicked := false } := by rfl
  exact ⟨h, ⟨twoParentsOps, _, h⟩, by rfl, by decide⟩

/-- C5, amended: result handling never appends a URL that is in the visited set. For every
state and submitted site, `submitResult` leaves the old frontier in place and appends
targets whose URLs are links of the site and are not in the visited set as it stands after
the call (which holds the submitted URL); whether a URL is already pending is not
looked at. -/
theorem C5_no_visited_url_appended (std : GoStd) (c : Controller) (site : Site) :
    ∃ new : List Site,
      (c.submitResult std site).state.scrapeQueue = c.scrapeQueue ++ new ∧
      ∀ t ∈ new, t.Url ∈ site.Links ∧
        t.Url ∉ (c.submitResult std site).state.scrapedSites ∧ t.Url ≠ site.Url := by
  obtain ⟨new, hs, hn⟩ := submitResult_spec std c site
  have hv : (c.submitResult std site).state.scrapedSites = c.scrapedSites ++ [site.Url] := by
    rw [hs]
    by_cases he : site.Err = none <;> simp [recorded, he]
  refine ⟨new, by rw [hs], fun t ht => ?_⟩
  obtain ⟨-, h2, h3, -⟩ := hn t ht
  refine ⟨h2, by rw [hv]; exact h3, fun heq => h3 ?_⟩
  rw [heq]
  simp

/-! ## C7: result recording -/

theorem SeedCrawlingQueue_stop (urls : List String) :
    ∀ c : Controller, (c.SeedCrawlingQueue urls).stop = c.stop := by
  induction urls with
  | nil => intro c; rfl
  | cons url rest ih =>
    intro c
    simp only [Controller.SeedCrawlingQueue]
    rw [ih]
    rfl

theorem serveJobRequest_stopped (c : Controller) (rand : Nat → Nat) (h : c.stop = true) :
    c.serveJobRequest rand = some (Exec.done stopJob c) := by
  simp [Controller.serveJobRequest, h, stopJob]

/-- Once the stop flag is set, a job request is answered with the `Stop` job and leaves
the state as it is. -/
theorem step_jobRequest_stopped (std : GoStd) (c : Controller) (rand : Nat → Nat)
    (h : c.stop = true) :
    c.step std (Op.jobRequest rand) = some (Exec.done [stopJob] c) := by
  simp [Controller.step, serveJobRequest_stopped c rand h]

/-- Once the stop flag is set, no event clears it, and an event that is handled sends one
`Stop` job if it is a job request and nothing otherwise. -/
theorem step_stopped (std : GoStd) (c : Controller) (op : Op) (h : c.stop = true) :
    ∃ e, c.step std op = some e ∧ e.state.stop = true ∧
      ∀ jobs c1, e = Exec.done jobs c1 →
        jobs = List.replicate (jobRequestCount [op]) stopJob := by
  cases op with
  | seed urls =>
    refine ⟨_, rfl, ?_, ?_⟩
    · simp [Exec.state, SeedCrawlingQueue_stop, h]
    · intro jobs c1 he
      cases he
      rfl
  | stop =>
    refine ⟨_, rfl, rfl, ?_⟩
    intro jobs c1 he
    cases he
    rfl
  | jobRequest rand =>
    refine ⟨Exec.done [stopJob] c, step_jobRequest_stopped std c rand h, h, ?_⟩
    intro jobs c1 he
    cases he
    rfl
  | result site =>
    obtain ⟨new, hs, -⟩ := submitResult_spec std c site
    have hstop : (c.submitResult std site).state.stop = true := by
      rw [hs]
      by_cases he : site.Err = none <;> simp [recorded, he, h]
    cases hr : c.submitResult std site with
    | done u c1 =>
      rw [hr] at hstop
      refine ⟨Exec.done [] c1, by simp [Controller.step, hr], hstop, ?_⟩
      intro jobs c2 he
      cases he
      rfl
    | panic c1 =>
      rw [hr] at hstop
      refine ⟨Exec.panic c1, by simp [Controller.step, hr], hstop, ?_⟩
      intro jobs c2 he
      cases he

theorem jobRequestCount_cons (op : Op) (ops : List Op) :
    jobRequestCount (op :: ops) = jobRequestCount [op] + jobRequestCount ops := by
  cases op <;> simp [jobRequestCount, Nat.add_comm]

/-- A run from a state with the stop flag set: the flag stays set, and the jobs sent are
one `Stop` job for each job request among the events handled, which are all the events
unless result handling panicked. -/
theorem run_stopped (std : GoStd) (ops : List Op) :
    ∀ c : Controller, c.stop = true →
      ∃ r, c.run std ops = some r ∧ r.final.stop = true ∧
        ∃ handled rest, ops = handled ++ rest ∧
          r.jobs = List.replicate (jobRequestCount handled) stopJob ∧
          (r.panicked = false → rest = []) := by
  induction ops with
  | nil => intro c h; exact ⟨_, rfl, h, [], [], rfl, rfl, fun _ => rfl⟩
  | cons op ops ih =>
    intro c h
    obtain ⟨e, he, hst, hj⟩ := step_stopped std c op h
    cases e with
    | panic c1 =>
      refine ⟨{ jobs := [], final := c1, panicked := true }, by simp [Controller.run, he], hst,
        [], op :: ops, rfl, rfl, ?_⟩
      intro hp
      cases hp
    | done jobs c1 =>
      obtain ⟨r, hr, hrs, handled, rest, hops, hrj, hrest⟩ := ih c1 hst
      refine ⟨{ r with jobs := jobs ++ r.jobs }, by simp [Controller.run, he, hr], hrs,
        op :: handled, rest, by rw [hops]; rfl, ?_, hrest⟩
      show jobs ++ r.jobs = List.replicate (jobRequestCount (op :: handled)) stopJob
      rw [jobRequestCount_cons op handled, List.replicate_add, hj jobs c1 rfl, hrj]

/-- C8: `Stop` sets the stop flag and a second `Stop` changes nothing. In every state with
the flag set, the coordinator answers a job request by sending exactly the `Stop` job and
leaves the whole state, frontier and visited set included, as it was, and no event clears
the flag. Hence after `Stop`, every run of later events (seeding, `Stop`, job requests,
results) is handled with the flag still set at the end, every job request handled in it is
answered with one `Stop` job and nothing else is sent, so no `Scrape` or `Wait` job is
issued; all events are handled unless result handling panics; and a job request in the
state the run ends in is again answered with the `Stop` job, the state unchanged. -/
theorem C8_stop_is_final (std : GoStd) (c : Controller) :
    c.Stop.stop = true ∧ c.Stop.Stop = c.Stop ∧
    (∀ (c0 : Controller) (rand : Nat → Nat), c0.stop = true →
      c0.step std (Op.jobRequest rand) = some (Exec.done [stopJob] c0) ∧
      c0.serveJobRequest rand = some (Exec.done stopJob c0)) ∧
    (∀ (c0 : Controller) (op : Op), c0.stop = true →
      ∃ e, c0.step std op = some e ∧ e.state.stop = true) ∧
    ∀ ops : List Op, ∃ r, c.Stop.run std ops = some r ∧ r.final.stop = true ∧
      (∃ handled rest, ops = handled ++ rest ∧
        r.jobs = List.replicate (jobRequestCount handled) stopJob ∧
        (r.panicked = false → rest = [])) ∧
      (r.panicked = false → r.jobs = List.replicate (jobRequestCount ops) stopJob) ∧
      (∀ j ∈ r.jobs, j = stopJob) ∧
      (∀ j ∈ r.jobs, j.Cmd ≠ Command.ScrapeCommand ∧ j.Cmd ≠ Command.WaitCommand) ∧
      ∀ rand, r.final.step std (Op.jobRequest rand) = some (Exec.done [stopJob] r.final) ∧
        r.final.serveJobRequest rand = some (Exec.done stopJob r.final) := by
  refine ⟨rfl, rfl,
    fun c0 rand h0 => ⟨step_jobRequest_stopped std c0 rand h0, serveJobRequest_stopped c0 rand h0⟩,
    fun c0 op h0 => ?_, fun ops => ?_⟩
  · obtain ⟨e, he, hs, -⟩ := step_stopped std c0 op h0
    exact ⟨e, he, hs⟩
  · obtain ⟨r, hr, hs, handled, rest, hops, hj, hrest⟩ := run_stopped std ops c.Stop rfl
    have hall : ∀ j ∈ r.jobs, j = stopJob := by
      intro j hm
      rw [hj] at hm
      exact List.eq_of_mem_replicate hm
    refine ⟨r, hr, hs, ⟨handled, rest, hops, hj, hrest⟩, ?_, hall, ?_,
      fun rand => ⟨step_jobRequest_stopped std _ rand hs, serveJobRequest_stopped _ rand hs⟩⟩
    · intro hp
      have hnil := hrest hp
      rw [hops, hnil, List.append_nil]
      exact hj
    · intro j hm
      rw [hall j hm]
      exact ⟨by decide, by decide⟩

/-- C8 at a concrete input: `Stop` is called on a controller whose queue holds a fresh
entry; a job request, a submitted result and another job request follow. Both requests are
answered with the `Stop` job, and the request handled first leaves the state as it was. -/
theorem C8_stop_is_final_witness :
    visitedFirstController.Stop.stop = true ∧
    visitedFirstController.Stop.step exampleStd (Op.jobRequest zeroRand) =
      some (Exec.done [stopJob] visitedFirstController.Stop) ∧
    (visitedFirstController.Stop.run exampleStd afterStopOps).map
        (fun r => (r.jobs, r.panicked, r.final.stop)) =
      some ([stopJob, stopJob], false, true) :=
  ⟨rfl,
   ((C8_stop_is_final exampleStd visitedFirstController).2.2.1
      visitedFirstController.Stop zeroRand rfl).1,
   by rfl⟩

/-! ## C10: RemoveDuplicateItems -/

section dedup
variable {T : Type} [DecidableEq T]

/-- Invariant of the deduplication loop: with the key set matching the output so far, the
final output has no repeats, holds what was there plus what was still to come, and extends
the output so far by a subsequence of the remaining input. -/
theorem RemoveDuplicateItemsLoop_inv (rest : List T) :
    ∀ allKeys slice : List T, (∀ x, x ∈ allKeys ↔ x ∈ slice) → slice.Nodup →
      (RemoveDuplicateItemsLoop rest allKeys slice).Nodup ∧
      (∀ x, x ∈ RemoveDuplicateItemsLoop rest allKeys slice ↔ x ∈ slice ∨ x ∈ rest) ∧
      ∃ tail, RemoveDuplicateItemsLoop rest allKeys slice = slice ++ tail ∧
        tail.Sublist rest := by
  induction rest with
  | nil =>
    intro allKeys slice _ hnd
    exact ⟨hnd, by simp [RemoveDuplicateItemsLoop], [], by simp [RemoveDuplicateItemsLoop],
      List.Sublist.refl _⟩
  | cons item rest ih =>
    intro allKeys slice hk hnd
    unfold RemoveDuplicateItemsLoop
    by_cases hc : Contains allKeys item = true
    · rw [if_pos hc]
      have hmem : item ∈ slice := (hk item).mp ((Contains_iff _ _).mp hc)
      obtain ⟨h1, h2, tail, h3, h4⟩ := ih allKeys slice hk hnd
      refine ⟨h1, fun x => ?_, tail, h3, List.Sublist.cons item h4⟩
      rw [h2 x, List.mem_cons]
      constructor
      · rintro (h | h)
        · exact Or.inl h
        · exact Or.inr (Or.inr h)
      · rintro (h | h | h)
        · exact Or.inl h
        · exact Or.inl (h ▸ hmem)
        · exact Or.inr h
    · rw [if_neg hc]
      have hnot : item ∉ slice := fun hm => hc ((Contains_iff _ _).mpr ((hk item).mpr hm))
      have hk1 : ∀ x, x ∈ item :: allKeys ↔ x ∈ slice ++ [item] := by
        intro x
        simp only [List.mem_cons, List.mem_append, List.mem_singleton, hk x]
        tauto
      have hnd1 : (slice ++ [item]).Nodup := by
        rw [List.nodup_append]
        exact ⟨hnd, List.nodup_singleton _, by
          intro a ha hb
          rw [List.mem_singleton] at hb
          exact hnot (hb ▸ ha)⟩
      obtain ⟨h1, h2, tail, h3, h4⟩ := ih (item :: allKeys) (slice ++ [item]) hk1 hnd1
      refine ⟨h1, fun x => ?_, item :: tail, by rw [h3]; simp, List.Sublist.cons₂ item h4⟩
      rw [h2 x]
      simp only [List.mem_append, List.mem_singleton, List.mem_cons]
      tauto

/-- On an input without repeats that is also disjoint from the output so far, the loop
appends the whole input. -/
theorem RemoveDuplicateItemsLoop_of_nodup (rest : List T) :
    ∀ allKeys slice : List T, (∀ x, x ∈ allKeys ↔ x ∈ slice) → (slice ++ rest).Nodup →
      RemoveDuplicateItemsLoop rest allKeys slice = slice ++ rest := by
  induction rest with
  | nil => intro allKeys slice _ _; simp [RemoveDuplicateItemsLoop]
  | cons item rest ih =>
    intro allKeys slice hk hnd
    unfold RemoveDuplicateItemsLoop
    have hnot : item ∉ slice := by
      intro hm
      rw [List.nodup_append] at hnd
      exact hnd.2.2 hm (List.mem_cons_self _ _)
    have hc : ¬ Contains allKeys item = true :=
      fun hc => hnot ((hk item).mp ((Contains_iff _ _).mp hc))
    rw [if_neg hc]
    have hk1 : ∀ x, x ∈ item :: allKeys ↔ x ∈ slice ++ [item] := by
      intro x
      simp only [List.mem_cons, List.mem_append, List.mem_singleton, hk x]
      tauto
    rw [ih (item :: allKeys) (slice ++ [item]) hk1 (by simpa using hnd)]
    simp

/-- The loop computes the first occurrences: with `pre` the input consumed so far, it
appends the elements of the remaining input that occur neither in `pre` nor earlier in
the remaining input. -/
theorem RemoveDuplicateItemsLoop_eq (rest : List T) :
    ∀ allKeys slice pre : List T, (∀ x, x ∈ allKeys ↔ x ∈ pre) →
      RemoveDuplicateItemsLoop rest allKeys slice =
        slice ++ (List.range rest.length).filterMap (fun i =>
          match rest.get? i with
          | some x => if x ∈ pre ++ rest.take i then none else some x
          | none => none) := by
  induction rest with
  | nil => intro allKeys slice pre _; simp [RemoveDuplicateItemsLoop]
  | cons item rest ih =>
    intro allKeys slice pre hk
    unfold RemoveDuplicateItemsLoop
    rw [List.length_cons, List.range_succ_eq_map, List.filterMap_cons, List.filterMap_map]
    have hfun : ((fun i => match (item :: rest).get? i with
          | some x => if x ∈ pre ++ (item :: rest).take i then none else some x
          | none => none) ∘ Nat.succ) =
        (fun i => match rest.get? i with
          | some x => if x ∈ (pre ++ [item]) ++ rest.take i then none else some x
          | none => none) := by
      funext i
      simp only [Function.comp, List.get?_cons_succ, List.take_succ_cons, List.append_assoc,
        List.singleton_append]
    rw [hfun]
    by_cases hc : Contains allKeys item = true
    · rw [if_pos hc]
      have hmem : item ∈ pre := (hk item).mp ((Contains_iff _ _).mp hc)
      have hk1 : ∀ x, x ∈ allKeys ↔ x ∈ pre ++ [item] := by
        intro x
        simp only [List.mem_append, List.mem_singleton, hk x]
        constructor
        · exact Or.inl
        · rintro (h | h)
          · exact h
          · exact h ▸ hmem
      rw [ih allKeys slice (pre ++ [item]) hk1]
      simp [hmem]
    · rw [if_neg hc]
      have hnot : item ∉ pre := fun hm => hc ((Contains_iff _ _).mpr ((hk item).mpr hm))
      have hk1 : ∀ x, x ∈ item :: allKeys ↔ x ∈ pre ++ [item] := by
        intro x
        simp only [List.mem_cons, List.mem_append, List.mem_singleton, hk x]
        tauto
      rw [ih (item :: allKeys) (slice ++ [item]) (pre ++ [item]) hk1]
      simp [hnot]

theorem RemoveDuplicateItems_nodup (l : List T) : (RemoveDuplicateItems l).Nodup :=
  (RemoveDuplicateItemsLoop_inv l [] [] (by simp) List.nodup_nil).1

theorem RemoveDuplicateItems_mem (l : List T) (x : T) : x ∈ RemoveDuplicateItems l ↔ x ∈ l := by
  have h := (RemoveDuplicateItemsLoop_inv l [] [] (by simp) List.nodup_nil).2.1 x
  simpa [RemoveDuplicateItems] using h

theorem RemoveDuplicateItems_sublist (l : List T) : (RemoveDuplicateItems l).Sublist l := by
  obtain ⟨tail, h1, h2⟩ := (RemoveDuplicateItemsLoop_inv l [] [] (by simp) List.nodup_nil).2.2
  unfold RemoveDuplicateItems
  rw [h1]
  simpa using h2

end dedup

/-- C10: for every list `l`, `RemoveDuplicateItems l` has no repeated element, contains
exactly the elements of `l`, is the subsequence of `l` made of each element's first
occurrence, and applying the function twice equals applying it once. -/
theorem C10_RemoveDuplicateItems {T : Type} [DecidableEq T] (l : List T) :
    (RemoveDuplicateItems l).Nodup ∧
    (∀ x, x ∈ RemoveDuplicateItems l ↔ x ∈ l) ∧
    (RemoveDuplicateItems l).Sublist l ∧
    RemoveDuplicateItems l = firstOccurrences l ∧
    RemoveDuplicateItems (RemoveDuplicateItems l) = RemoveDuplicateItems l := by
  refine ⟨RemoveDuplicateItems_nodup l, RemoveDuplicateItems_mem l,
    RemoveDuplicateItems_sublist l, ?_, ?_⟩
  · have h := RemoveDuplicateItemsLoop_eq l [] [] [] (by simp)
    simpa [RemoveDuplicateItems, firstOccurrences] using h
  · have h := RemoveDuplicateItemsLoop_of_nodup (RemoveDuplicateItems l) [] [] (by simp)
      (by simpa using RemoveDuplicateItems_nodup l)
    simpa [RemoveDuplicateItems] using h

/-! ## C6: the structural extractor on input that ends inside the raw-text scan -/

/-- While no text token is left, the raw-text scan never returns, and the start-tag
dispatch either does not return or returns without having read a token. -/
theorem parseText_without_text (fuel : Nat) :
    (∀ (toks : List Token) (site : Site),
      (∀ t ∈ toks, t.Type_ ≠ TokenType.TextToken) → parseText fuel toks site = none) ∧
    (∀ (token : Token) (toks : List Token) (site : Site),
      (∀ t ∈ toks, t.Type_ ≠ TokenType.TextToken) →
      parseStartTagToken fuel token toks site = none ∨
      ∃ site1, parseStartTagToken fuel token toks site = some (toks, site1)) := by
  induction fuel with
  | zero =>
    exact ⟨fun toks site _ => by simp [parseText],
      fun token toks site _ => Or.inl (by simp [parseStartTagToken])⟩
  | succ fuel ih =>
    obtain ⟨ihT, ihS⟩ := ih
    constructor
    · intro toks site hno
      cases toks with
      | nil =>
        rw [parseText]
        simp only [tokenizerNext]
        exact ihT [] site hno
      | cons token rest =>
        have hrest : ∀ t ∈ rest, t.Type_ ≠ TokenType.TextToken :=
          fun t ht => hno t (List.mem_cons_of_mem _ ht)
        have htok : token.Type_ ≠ TokenType.TextToken := hno token (List.mem_cons_self _ _)
        rw [parseText]
        simp only [tokenizerNext]
        rw [if_neg htok]
        by_cases hs : token.Type_ = TokenType.StartTagToken
        · rw [if_pos hs]
          rcases ihS token rest site hrest with h | ⟨site1, h⟩
          · rw [h]
          · rw [h]
            exact ihT rest site1 hrest
        · rw [if_neg hs]
          exact ihT rest site hrest
    · intro token toks site hno
      rw [parseStartTagToken]
      by_cases ha : token.Data = "a"
      · rw [if_pos ha]
        dsimp only
        by_cases hu : parseHref token ≠ ""
        · rw [if_pos hu]; exact Or.inr ⟨_, rfl⟩
        · rw [if_neg hu]; exact Or.inr ⟨_, rfl⟩
      · rw [if_neg ha]
        by_cases hm : token.Data = "meta"
        · rw [if_pos hm]
          dsimp only
          by_cases hu : parseMeta token ≠ ""
          · rw [if_pos hu]; exact Or.inr ⟨_, rfl⟩
          · rw [if_neg hu]; exact Or.inr ⟨_, rfl⟩
        · rw [if_neg hm]
          by_cases ht : Contains textTokenStartTags token.Data = true
          · rw [if_pos ht]
            exact Or.inl (ihT toks site hno)
          · rw [if_neg ht]
            exact Or.inr ⟨_, rfl⟩

/-- C6 fails on the bodies `<p>` and `<p>text</p></body></html>`: whatever the number of
steps allowed, `HtmlParser.Parse` has not returned. The input ends inside `parseText`,
which reads the error token again and again. -/
theorem C6_parse_never_returns (fuel : Nat) (site : Site) :
    HtmlParser.Parse fuel unclosedParagraph site = none ∧
    HtmlParser.Parse fuel minifiedPage site = none := by
  constructor
  · cases fuel with
    | zero => rfl
    | succ fuel =>
      cases fuel with
      | zero => rfl
      | succ fuel =>
        have h := (parseText_without_text fuel).1 [] site (by simp)
        simp [HtmlParser.Parse, parseLoop, unclosedParagraph, tokenizerNext,
          parseStartTagToken, Contains, textTokenStartTags, h]
  · cases fuel with
    | zero => rfl
    | succ fuel =>
      cases fuel with
      | zero => rfl
      | succ fuel =>
        cases fuel with
        | zero => rfl
        | succ fuel =>
          have h := (parseText_without_text (fuel + 1)).1
            [{ Type_ := TokenType.EndTagToken, Data := "body", Attr := [] },
             { Type_ := TokenType.EndTagToken, Data := "html", Attr := [] }]
            { site with Text := site.Text ++ ["text"] } (by simp)
          have step : HtmlParser.Parse (fuel + 3) minifiedPage site =
              (match parseText (fuel + 1)
                  [{ Type_ := TokenType.EndTagToken, Data := "body", Attr := [] },
                   { Type_ := TokenType.EndTagToken, Data := "html", Attr := [] }]
                  { site with Text := site.Text ++ ["text"] } with
                | none => none
                | some (rest1, site1) => parseLoop (fuel + 1) rest1 site1) := rfl
          rw [step, h]

/-! ## C9: the link list after `ParseSite` -/

theorem removeUnparsableUrls_sublist (std : GoStd) (rawUrls : List String) :
    (removeUnparsableUrls std rawUrls).Sublist rawUrls := by
  induction rawUrls with
  | nil => exact List.Sublist.refl _
  | cons url rest ih =>
    unfold removeUnparsableUrls
    by_cases h1 : url = ""
    · rw [if_pos h1]; exact List.Sublist.cons url ih
    · rw [if_neg h1]
      by_cases h2 : hasUnparseableSuffix (cleanUrl std url) UnparseableFileSuffixes = true
      · rw [if_pos h2]; exact List.Sublist.cons url ih
      · rw [if_neg h2]; exact List.Sublist.cons₂ url ih

/-- The raw-text scan and the start-tag dispatch leave the URL of the site alone. -/
theorem parseText_url (fuel : Nat) :
    (∀ (toks : List Token) (site : Site) (r : List Token × Site),
      parseText fuel toks site = some r → r.2.Url = site.Url) ∧
    (∀ (token : Token) (toks : List Token) (site : Site) (r : List Token × Site),
      parseStartTagToken fuel token toks site = some r → r.2.Url = site.Url) := by
  induction fuel with
  | zero =>
    exact ⟨fun toks site r h => by simp [parseText] at h,
      fun token toks site r h => by simp [parseStartTagToken] at h⟩
  | succ fuel ih =>
    obtain ⟨ihT, ihS⟩ := ih
    constructor
    · intro toks site r h
      rw [parseText] at h
      cases toks with
      | nil =>
        simp only [tokenizerNext] at h
        exact ihT [] site r h
      | cons token rest =>
        simp only [tokenizerNext] at h
        by_cases ht : token.Type_ = TokenType.TextToken
        · rw [if_pos ht] at h
          by_cases hc : stringsTrimSpace token.Data ≠ ""
          · rw [if_pos hc] at h; cases h; rfl
          · rw [if_neg hc] at h; cases h; rfl
        · rw [if_neg ht] at h
          by_cases hs : token.Type_ = TokenType.StartTagToken
          · rw [if_pos hs] at h
            cases hp : parseStartTagToken fuel token rest site with
            | none => rw [hp] at h; cases h
            | some r1 =>
              rw [hp] at h
              dsimp only at h
              rw [ihT r1.1 r1.2 r h, ihS token rest site r1 hp]
          · rw [if_neg hs] at h
            exact ihT rest site r h
    · intro token toks site r h
      rw [parseStartTagToken] at h
      by_cases ha : token.Data = "a"
      · rw [if_pos ha] at h
        dsimp only at h
        by_cases hu : parseHref token ≠ ""
        · rw [if_pos hu] at h; cases h; rfl
        · rw [if_neg hu] at h; cases h; rfl
      · rw [if_neg ha] at h
        by_cases hm : token.Data = "meta"
        · rw [if_pos hm] at h
          dsimp only at h
          by_cases hu : parseMeta token ≠ ""
          · rw [if_pos hu] at h; cases h; rfl
          · rw [if_neg hu] at h; cases h; rfl
        · rw [if_neg hm] at h
          by_cases ht : Contains textTokenStartTags token.Data = true
          · rw [if_pos ht] at h
            exact ihT toks site r h
          · rw [if_neg ht] at h; cases h; rfl

/-- The structural extractor leaves the URL of the site alone. -/
theorem HtmlParser_Parse_url (fuel : Nat) :
    ∀ (toks : List Token) (site parsed : Site),
      HtmlParser.Parse fuel toks site = some parsed → parsed.Url = site.Url := by
  unfold HtmlParser.Parse
  induction fuel with
  | zero => intro toks site parsed h; simp [parseLoop] at h
  | succ fuel ih =>
    intro toks site parsed h
    rw [parseLoop] at h
    cases toks with
    | nil =>
      simp only [tokenizerNext] at h
      cases h
      rfl
    | cons token rest =>
      simp only [tokenizerNext] at h
      by_cases hs : token.Type_ = TokenType.StartTagToken
      · rw [if_pos hs] at h
        cases hp : parseStartTagToken fuel token rest site with
        | none => rw [hp] at h; cases h
        | some r1 =>
          rw [hp] at h
          dsimp only at h
          rw [ih r1.1 r1.2 parsed h, (parseText_url fuel).2 token rest site r1 hp]
      · rw [if_neg hs] at h
        by_cases ht : Contains textTokenStartTags token.Data = true
        · rw [if_pos ht] at h
          cases hp : parseText fuel rest site with
          | none => rw [hp] at h; cases h
          | some r1 =>
            rw [hp] at h
            dsimp only at h
            rw [ih r1.1 r1.2 parsed h, (parseText_url fuel).1 rest site r1 hp]
        · rw [if_neg ht] at h
          exact ih rest site parsed h

theorem TextParser_Parse_url (body : Option String) (site : Site) :
    (TextParser.Parse body site).Url = site.Url ∧
    (TextParser.Parse body site).Links = site.Links := by
  cases body <;> exact ⟨rfl, rfl⟩

/-- When `ParseSite` returns without error, the site it leaves is the parser's output,
with its content type set, put through the three normalization passes; the parser is the
structural extractor when the header contains `text/html` and the verbatim one
otherwise. -/
theorem ParseSite_ok (fuel : Nat) (std : GoStd) (res : Response) (site site1 : Site)
    (h : ParseSite fuel std res site = some (site1, none)) :
    ∃ (parsed : Site) (type : String),
      site1 = normalizeLinks std { parsed with Type_ := type } ∧ parsed.Url = site.Url ∧
      ((stringsContains res.ContentType "text/html" = true ∧
          HtmlParser.Parse fuel res.Tokens site = some parsed) ∨
        (stringsContains res.ContentType "text/html" = false ∧
          parsed = TextParser.Parse res.Body site)) := by
  unfold ParseSite at h
  dsimp only at h
  by_cases h1 : stringsContains res.ContentType "text/html" = true
  · rw [if_pos h1] at h
    cases hp : HtmlParser.Parse fuel res.Tokens site with
    | none => rw [hp] at h; cases h
    | some parsed =>
      rw [hp] at h
      dsimp only at h
      cases h
      exact ⟨parsed, _, rfl, HtmlParser_Parse_url fuel _ _ _ hp, Or.inl ⟨h1, rfl⟩⟩
  · rw [if_neg h1] at h
    have h1f : stringsContains res.ContentType "text/html" = false := by simpa using h1
    have hu := (TextParser_Parse_url res.Body site).1
    split_ifs at h <;> first
      | (cases h; exact ⟨TextParser.Parse res.Body site, _, rfl, hu, Or.inr ⟨h1f, rfl⟩⟩)
      | (cases h)

/-- C9 as stated fails: on the body `<a href="/page2"></a><a href="https://a.test/page2"></a>`
of the page `https://a.test`, the parser yields two different links, both pass the first
two passes, both resolve to `https://a.test/page2`, and the link list after `ParseSite`
holds that URL twice. -/
theorem C9_counterexample :
    (ParseSite 9 exampleStd twoAnchorsResponse rootTarget).map
        (fun r => (r.1.Links, r.2)) =
      some (["https://a.test/page2", "https://a.test/page2"], none) ∧
    (HtmlParser.Parse 9 twoAnchorsResponse.Tokens rootTarget).map Site.Links =
      some ["/page2", "https://a.test/page2"] ∧
    ¬ ["https://a.test/page2", "https://a.test/page2"].Nodup := by
  refine ⟨by rfl, by rfl, by decide⟩

/-- C9, amended: when `ParseSite` returns without error, the target's link list is the
parser's raw link list put through first-occurrence deduplication and the suffix filter,
which leaves a list without repeats, and then resolved link by link, in that order,
against the target's URL. The resolved list has no repeats whenever resolution sends the
surviving links to pairwise different URLs; two different raw links that resolve to the
same URL both stay. -/
theorem C9_normalized_links (fuel : Nat) (std : GoStd) (res : Response) (site site1 : Site)
    (h : ParseSite fuel std res site = some (site1, none)) :
    ∃ parsed : Site,
      ((stringsContains res.ContentType "text/html" = true ∧
          HtmlParser.Parse fuel res.Tokens site = some parsed) ∨
        (stringsContains res.ContentType "text/html" = false ∧
          parsed = TextParser.Parse res.Body site)) ∧
      site1.Links = (removeUnparsableUrls std (RemoveDuplicateItems parsed.Links)).map
        (fun link => (extendRelativeUrl std link site.Url).1) ∧
      (removeUnparsableUrls std (RemoveDuplicateItems parsed.Links)).Nodup ∧
      (removeUnparsableUrls std (RemoveDuplicateItems parsed.Links)).Sublist
        (firstOccurrences parsed.Links) ∧
      ((∀ a ∈ removeUnparsableUrls std (RemoveDuplicateItems parsed.Links),
          ∀ b ∈ removeUnparsableUrls std (RemoveDuplicateItems parsed.Links),
          (extendRelativeUrl std a site.Url).1 = (extendRelativeUrl std b site.Url).1 → a = b) →
        site1.Links.Nodup) := by
  obtain ⟨parsed, type, h1, h2, h3⟩ := ParseSite_ok fuel std res site site1 h
  have hsub := removeUnparsableUrls_sublist std (RemoveDuplicateItems parsed.Links)
  have hnd : (removeUnparsableUrls std (RemoveDuplicateItems parsed.Links)).Nodup :=
    hsub.nodup (RemoveDuplicateItems_nodup _)
  have hl : site1.Links = (removeUnparsableUrls std (RemoveDuplicateItems parsed.Links)).map
      (fun link => (extendRelativeUrl std link site.Url).1) := by
    rw [h1, ← h2]
    rfl
  have hfo : RemoveDuplicateItems parsed.Links = firstOccurrences parsed.Links := by
    have h := RemoveDuplicateItemsLoop_eq parsed.Links [] [] [] (by simp)
    simpa [RemoveDuplicateItems, firstOccurrences] using h
  refine ⟨parsed, h3, hl, hnd, hfo ▸ hsub, fun hinj => ?_⟩
  rw [hl]
  exact List.Nodup.map_on (fun a ha b hb hab => hinj a ha b hb hab) hnd

/-- C9 at a concrete input: `ParseSite` returns without error on the two-anchor page. -/
theorem C9_normalized_links_witness :
    ParseSite 9 exampleStd twoAnchorsResponse rootTarget =
      some (twoAnchorsParsed, none) ∧
    ∃ parsed : Site,
      ((stringsContains twoAnchorsResponse.ContentType "text/html" = true ∧
          HtmlParser.Parse 9 twoAnchorsResponse.Tokens rootTarget = some parsed) ∨
        (stringsContains twoAnchorsResponse.ContentType "text/html" = false ∧
          parsed = TextParser.Parse twoAnchorsResponse.Body rootTarget)) ∧
      twoAnchorsParsed.Links =
        (removeUnparsableUrls exampleStd (RemoveDuplicateItems parsed.Links)).map
          (fun link => (extendRelativeUrl exampleStd link rootTarget.Url).1) :=
  ⟨by rfl, by
    obtain ⟨parsed, h1, h2, -⟩ := C9_normalized_links 9 exampleStd twoAnchorsResponse
      rootTarget _ (by rfl :
        ParseSite 9 exampleStd twoAnchorsResponse rootTarget =
          some (twoAnchorsParsed, none))
    exact ⟨parsed, h1, h2⟩⟩

/-! ## C11: suffix filtering -/

theorem containsChars_singleton (sep : Char) (l : List Char) :
    containsChars l [sep] = true ↔ sep ∈ l := by
  induction l with
  | nil => simp [containsChars]
  | cons c l ih =>
    simp only [containsChars, Bool.or_eq_true, ih, List.mem_cons]
    constructor
    · rintro (h | h)
      · left
        simp only [List.isPrefixOf, Bool.and_eq_true, beq_iff_eq] at h
        exact h.1
      · exact Or.inr h
    · rintro (h | h)
      · left
        simp [List.isPrefixOf, h]
      · exact Or.inr h

/-- The text tested by `removeUnparsableUrls` is the lower-cased link cut at its first
question mark. -/
theorem cleanUrl_eq (std : GoStd) (url : String) :
    cleanUrl std url = splitFirst (std.toLower url) '?' := by
  unfold cleanUrl
  by_cases h : stringsContains (std.toLower url) "?" = true
  · simp only [h, if_true]
  · simp only [h, Bool.false_eq_true, if_false]
    have hq : '?' ∉ (std.toLower url).toList := by
      intro hm
      exact h ((containsChars_singleton '?' _).mpr hm)
    have ht : (std.toLower url).toList.takeWhile (fun c => c != '?') =
        (std.toLower url).toList := by
      rw [List.takeWhile_eq_self_iff]
      intro x hx
      simp only [bne_iff_ne, ne_eq]
      intro hxe
      exact hq (hxe ▸ hx)
    unfold splitFirst
    rw [ht]
    rfl

theorem hasUnparseableSuffix_iff (clean : String) (table : List String) :
    hasUnparseableSuffix clean table = true ↔ ∃ suf ∈ table, suf.toList <:+ clean.toList := by
  induction table with
  | nil => simp [hasUnparseableSuffix]
  | cons suf rest ih =>
    unfold hasUnparseableSuffix
    by_cases h : stringsHasSuffix clean suf = true
    · rw [if_pos h]
      simp only [true_iff]
      exact ⟨suf, List.mem_cons_self _ _, by simpa [stringsHasSuffix] using h⟩
    · rw [if_neg h, ih]
      have hn : ¬ suf.toList <:+ clean.toList := by simpa [stringsHasSuffix] using h
      constructor
      · rintro ⟨x, hx, hs⟩
        exact ⟨x, List.mem_cons_of_mem _ hx, hs⟩
      · rintro ⟨x, hx, hs⟩
        rcases List.mem_cons.mp hx with rfl | hx
        · exact absurd hs hn
        · exact ⟨x, hx, hs⟩

theorem removeUnparsableUrls_eq_filter (std : GoStd) (rawUrls : List String) :
    removeUnparsableUrls std rawUrls =
      rawUrls.filter (fun url => decide (keptBySuffixFilter std url)) := by
  induction rawUrls with
  | nil => rfl
  | cons url rest ih =>
    unfold removeUnparsableUrls
    by_cases h1 : url = ""
    · rw [if_pos h1, ih, List.filter_cons_of_neg]
      simp [keptBySuffixFilter, h1]
    · rw [if_neg h1]
      by_cases h2 : hasUnparseableSuffix (cleanUrl std url) UnparseableFileSuffixes = true
      · rw [if_pos h2, ih, List.filter_cons_of_neg]
        rw [hasUnparseableSuffix_iff, cleanUrl_eq] at h2
        obtain ⟨suf, hs, hsuf⟩ := h2
        simp only [keptBySuffixFilter, decide_eq_true_eq, not_and]
        intro _ hall
        exact hall suf hs hsuf
      · rw [if_neg h2, ih, List.filter_cons_of_pos]
        rw [hasUnparseableSuffix_iff, cleanUrl_eq] at h2
        simp only [keptBySuffixFilter, decide_eq_true_eq]
        exact ⟨h1, fun suf hs hsuf => h2 ⟨suf, hs, hsuf⟩⟩

theorem Char_toLower_eq_question (c : Char) : Char.toLower c = '?' ↔ c = '?' := by
  constructor
  · intro h
    unfold Char.toLower at h
    by_cases hr : c.toNat ≥ 65 ∧ c.toNat ≤ 90
    · simp only [hr, and_self, if_true] at h
      obtain ⟨h1, h2⟩ := hr
      exfalso
      generalize c.toNat = n at h h1 h2
      interval_cases n <;> revert h <;> decide
    · simpa [hr] using h
  · rintro rfl
    rfl

/-- Under `LowersByRune`, lower-casing neither makes nor unmakes a question mark. -/
theorem LowersByRune_question (std : GoStd) (f : Char → Char) (h : LowersByRune std f)
    (c : Char) : f c = '?' ↔ c = '?' := by
  obtain ⟨-, h2, h3⟩ := h
  by_cases hc : c.toNat < 128
  · rw [h2 c hc]
    exact Char_toLower_eq_question c
  · constructor
    · intro hf
      exact absurd hf (h3 c (by omega))
    · rintro rfl
      exact absurd (by decide : ('?' : Char).toNat < 128) hc

/-- Under `LowersByRune`, cutting at the first question mark and lower-casing commute. -/
theorem splitFirst_toLower (std : GoStd) (f : Char → Char) (h : LowersByRune std f)
    (link : String) :
    (splitFirst (std.toLower link) '?').toList = (splitFirst link '?').toList.map f := by
  have hfun : ((fun c : Char => c != '?') ∘ f) = (fun c : Char => c != '?') := by
    funext c
    have := LowersByRune_question std f h c
    by_cases hc : c = '?'
    · have hf : f c = '?' := this.mpr hc
      show (f c != '?') = (c != '?')
      rw [hf, hc]
    · have hf : f c ≠ '?' := fun hf => hc (this.mp hf)
      have e1 : (f c != '?') = true := bne_iff_ne.mpr hf
      have e2 : (c != '?') = true := bne_iff_ne.mpr hc
      simp only [Function.comp, e1, e2]
  unfold splitFirst
  rw [h.1 link]
  show List.takeWhile (fun c => c != '?') (List.map f link.toList) =
    List.map f (List.takeWhile (fun c => c != '?') link.toList)
  rw [List.takeWhile_map, hfun]

/-- A link whose text before the first question mark ends in `.png`, in any letter case,
does not pass the suffix filter. -/
theorem png_not_kept (std : GoStd) (f : Char → Char) (h : LowersByRune std f)
    (link : String) (hp : endsInPng (splitFirst link '?') = true) :
    ¬ keptBySuffixFilter std link := by
  rintro ⟨-, hall⟩
  refine hall ".png" (by simp [UnparseableFileSuffixes]) ?_
  rw [splitFirst_toLower std f h link]
  unfold endsInPng at hp
  generalize hrev : (splitFirst link '?').toList.reverse = r at hp
  have hl : (splitFirst link '?').toList = r.reverse := by
    rw [← hrev, List.reverse_reverse]
  rw [hl]
  have hdot : f '.' = '.' := by rw [h.2.1 '.' (by decide)]; rfl
  have hp1 : f 'p' = 'p' := by rw [h.2.1 'p' (by decide)]; rfl
  have hp2 : f 'P' = 'p' := by rw [h.2.1 'P' (by decide)]; rfl
  have hn1 : f 'n' = 'n' := by rw [h.2.1 'n' (by decide)]; rfl
  have hn2 : f 'N' = 'n' := by rw [h.2.1 'N' (by decide)]; rfl
  have hg1 : f 'g' = 'g' := by rw [h.2.1 'g' (by decide)]; rfl
  have hg2 : f 'G' = 'g' := by rw [h.2.1 'G' (by decide)]; rfl
  split at hp
  · rename_i c3 c2 c1 rest
    simp only [Bool.and_eq_true, Bool.or_eq_true, beq_iff_eq] at hp
    obtain ⟨⟨h1, h2⟩, h3⟩ := hp
    refine ⟨(rest.reverse).map f, ?_⟩
    have e1 : f c1 = 'p' := by rcases h1 with rfl | rfl <;> assumption
    have e2 : f c2 = 'n' := by rcases h2 with rfl | rfl <;> assumption
    have e3 : f c3 = 'g' := by rcases h3 with rfl | rfl <;> assumption
    simp only [List.reverse_cons, List.map_append, List.map_cons, List.map_nil, e1, e2, e3,
      hdot, List.append_assoc, List.cons_append, List.nil_append]
    rfl
  · cases hp

/-- C11: `removeUnparsableUrls` keeps, in the original order, exactly the links that are
non-empty and whose lower-cased text cut at the first question mark ends with no entry of
`UnparseableFileSuffixes`. With `strings.ToLower` working rune by rune (`LowersByRune`),
every link whose text before the first question mark ends in `.png`, in any letter case,
is absent from the result: a link ending in `.png` without a query string, and the same
link with a query string after it. -/
theorem C11_suffix_filtering (std : GoStd) (rawUrls : List String) :
    removeUnparsableUrls std rawUrls =
      rawUrls.filter (fun url => decide (keptBySuffixFilter std url)) ∧
    (removeUnparsableUrls std rawUrls).Sublist rawUrls ∧
    (∀ url, url ∈ removeUnparsableUrls std rawUrls ↔
      url ∈ rawUrls ∧ keptBySuffixFilter std url) ∧
    (∀ f, LowersByRune std f → ∀ link : String, endsInPng (splitFirst link '?') = true →
      link ∉ removeUnparsableUrls std rawUrls) ∧
    (∀ f, LowersByRune std f → ∀ base query : String, '?' ∉ base.toList →
      endsInPng base = true →
      base ∉ removeUnparsableUrls std rawUrls ∧
      base ++ "?" ++ query ∉ removeUnparsableUrls std rawUrls) := by
  have hf := removeUnparsableUrls_eq_filter std rawUrls
  have hmem : ∀ url, url ∈ removeUnparsableUrls std rawUrls ↔
      url ∈ rawUrls ∧ keptBySuffixFilter std url := by
    intro url
    rw [hf, List.mem_filter, decide_eq_true_eq]
  have hpng : ∀ f, LowersByRune std f → ∀ link : String,
      endsInPng (splitFirst link '?') = true → link ∉ removeUnparsableUrls std rawUrls :=
    fun f h link hp hm => png_not_kept std f h link hp ((hmem link).mp hm).2
  refine ⟨hf, removeUnparsableUrls_sublist std rawUrls, hmem, hpng, ?_⟩
  intro f h base query hq hp
  have hkeep : base.toList.takeWhile (fun c => c != '?') = base.toList := by
    rw [List.takeWhile_eq_self_iff]
    intro x hx
    simp only [bne_iff_ne, ne_eq]
    intro hxe
    exact hq (hxe ▸ hx)
  have hs1 : splitFirst base '?' = base := by
    unfold splitFirst
    rw [hkeep]
    rfl
  have hs2 : splitFirst (base ++ "?" ++ query) '?' = base := by
    unfold splitFirst
    have : (base ++ "?" ++ query).toList = base.toList ++ ('?' :: query.toList) := by
      simp [String.toList]
    rw [this, List.takeWhile_append]
    rw [if_pos (by rw [hkeep])]
    simp [hkeep]
  exact ⟨hpng f h base (by rw [hs1]; exact hp),
    hpng f h (base ++ "?" ++ query) (by rw [hs2]; exact hp)⟩

/-- C11 at a concrete input: the link `/img/Logo.PNG?x=1` is dropped and `/page` kept. -/
theorem C11_suffix_filtering_witness :
    LowersByRune exampleStd Char.toLower ∧
    endsInPng (splitFirst "/img/Logo.PNG?x=1" '?') = true ∧
    removeUnparsableUrls exampleStd imageAndPage = ["/page"] ∧
    "/img/Logo.PNG?x=1" ∉ removeUnparsableUrls exampleStd imageAndPage := by
  have hl : LowersByRune exampleStd Char.toLower := by
    refine ⟨fun s => rfl, fun c _ => rfl, fun c hc => ?_⟩
    intro h
    rw [(Char_toLower_eq_question c).mp h] at hc
    exact absurd hc (by decide)
  exact ⟨hl, by rfl, by rfl,
    (C11_suffix_filtering exampleStd imageAndPage).2.2.2.1 Char.toLower hl _ (by rfl)⟩

/-! ## C12: content-type dispatch -/

/-- The function `ParseSite` as a dispatch on the first supported content type in the
header. -/
theorem ParseSite_eq (fuel : Nat) (std : GoStd) (res : Response) (site : Site) :
    ParseSite fuel std res site =
      match firstSupportedType res.ContentType with
      | none =>
        some ({ site with Type_ := res.ContentType,
                          Err := some (noParserError res.ContentType) },
              some (noParserError res.ContentType))
      | some t =>
        if t = "text/html" then
          (HtmlParser.Parse fuel res.Tokens site).map
            (fun parsed => (normalizeLinks std { parsed with Type_ := t }, none))
        else some (normalizeLinks std { TextParser.Parse res.Body site with Type_ := t }, none) := by
  unfold ParseSite firstSupportedType supportedContentTypes
  dsimp only
  by_cases h1 : stringsContains res.ContentType "text/html" = true
  · simp only [List.find?, h1, if_true]
    cases HtmlParser.Parse fuel res.Tokens site <;> rfl
  · simp only [Bool.not_eq_true] at h1
    by_cases h2 : stringsContains res.ContentType "text/plain" = true
    · simp [List.find?, h1, h2]
    · simp only [Bool.not_eq_true] at h2
      by_cases h3 : stringsContains res.ContentType "text/markdown" = true
      · simp [List.find?, h1, h2, h3]
      · simp only [Bool.not_eq_true] at h3
        by_cases h4 : stringsContains res.ContentType "text/csv" = true
        · simp [List.find?, h1, h2, h3, h4]
        · simp only [Bool.not_eq_true] at h4
          by_cases h5 : stringsContains res.ContentType "application/json" = true
          · simp [List.find?, h1, h2, h3, h4, h5]
          · simp only [Bool.not_eq_true] at h5
            by_cases h6 : stringsContains res.ContentType "application/xml" = true
            · simp [List.find?, h1, h2, h3, h4, h5, h6]
            · simp only [Bool.not_eq_true] at h6
              simp [List.find?, h1, h2, h3, h4, h5, h6, noParserError]

/-- The raw-text scan and the start-tag dispatch leave the error of the site alone. -/
theorem parseText_err (fuel : Nat) :
    (∀ (toks : List Token) (site : Site) (r : List Token × Site),
      parseText fuel toks site = some r → r.2.Err = site.Err) ∧
    (∀ (token : Token) (toks : List Token) (site : Site) (r : List Token × Site),
      parseStartTagToken fuel token toks site = some r → r.2.Err = site.Err) := by
  induction fuel with
  | zero =>
    exact ⟨fun toks site r h => by simp [parseText] at h,
      fun token toks site r h => by simp [parseStartTagToken] at h⟩
  | succ fuel ih =>
    obtain ⟨ihT, ihS⟩ := ih
    constructor
    · intro toks site r h
      rw [parseText] at h
      cases toks with
      | nil =>
        simp only [tokenizerNext] at h
        exact ihT [] site r h
      | cons token rest =>
        simp only [tokenizerNext] at h
        by_cases ht : token.Type_ = TokenType.TextToken
        · rw [if_pos ht] at h
          by_cases hc : stringsTrimSpace token.Data ≠ ""
          · rw [if_pos hc] at h; cases h; rfl
          · rw [if_neg hc] at h; cases h; rfl
        · rw [if_neg ht] at h
          by_cases hs : token.Type_ = TokenType.StartTagToken
          · rw [if_pos hs] at h
            cases hp : parseStartTagToken fuel token rest site with
            | none => rw [hp] at h; cases h
            | some r1 =>
              rw [hp] at h
              dsimp only at h
              rw [ihT r1.1 r1.2 r h, ihS token rest site r1 hp]
          · rw [if_neg hs] at h
            exact ihT rest site r h
    · intro token toks site r h
      rw [parseStartTagToken] at h
      by_cases ha : token.Data = "a"
      · rw [if_pos ha] at h
        dsimp only at h
        by_cases hu : parseHref token ≠ ""
        · rw [if_pos hu] at h; cases h; rfl
        · rw [if_neg hu] at h; cases h; rfl
      · rw [if_neg ha] at h
        by_cases hm : token.Data = "meta"
        · rw [if_pos hm] at h
          dsimp only at h
          by_cases hu : parseMeta token ≠ ""
          · rw [if_pos hu] at h; cases h; rfl
          · rw [if_neg hu] at h; cases h; rfl
        · rw [if_neg hm] at h
          by_cases ht : Contains textTokenStartTags token.Data = true
          · rw [if_pos ht] at h
            exact ihT toks site r h
          · rw [if_neg ht] at h; cases h; rfl

/-- The structural extractor leaves the error of the site alone. -/
theorem HtmlParser_Parse_err (fuel : Nat) :
    ∀ (toks : List Token) (site parsed : Site),
      HtmlParser.Parse fuel toks site = some parsed → parsed.Err = site.Err := by
  unfold HtmlParser.Parse
  induction fuel with
  | zero => intro toks site parsed h; simp [parseLoop] at h
  | succ fuel ih =>
    intro toks site parsed h
    rw [parseLoop] at h
    cases toks with
    | nil =>
      simp only [tokenizerNext] at h
      cases h
      rfl
    | cons token rest =>
      simp only [tokenizerNext] at h
      by_cases hs : token.Type_ = TokenType.StartTagToken
      · rw [if_pos hs] at h
        cases hp : parseStartTagToken fuel token rest site with
        | none => rw [hp] at h; cases h
        | some r1 =>
          rw [hp] at h
          dsimp only at h
          rw [ih r1.1 r1.2 parsed h, (parseText_err fuel).2 token rest site r1 hp]
      · rw [if_neg hs] at h
        by_cases ht : Contains textTokenStartTags token.Data = true
        · rw [if_pos ht] at h
          cases hp : parseText fuel rest site with
          | none => rw [hp] at h; cases h
          | some r1 =>
            rw [hp] at h
            dsimp only at h
            rw [ih r1.1 r1.2 parsed h, (parseText_err fuel).1 rest site r1 hp]
        · rw [if_neg ht] at h
          exact ih rest site parsed h

/-- C12: a header that contains none of the six supported content types makes `ParseSite`
return the error, with `Type` the raw header, `Err` set and everything else, text and links
included, as before; a header that contains one makes every return of `ParseSite` carry no
error, `Type` the first supported type in the header and `Err` as before, and for the five
verbatim types `ParseSite` always returns. For `text/html` it returns exactly when the
structural extractor does, which it does not on the body `<p>`: there `ParseSite` never
returns and the target's `Type` is never set. -/
theorem C12_content_type_dispatch (fuel : Nat) (std : GoStd) (res : Response) (site : Site) :
    (firstSupportedType res.ContentType = none →
      ParseSite fuel std res site =
        some ({ site with Type_ := res.ContentType,
                          Err := some (noParserError res.ContentType) },
              some (noParserError res.ContentType))) ∧
    (∀ r, ParseSite fuel std res site = some r →
      (r.2 ≠ none ↔ firstSupportedType res.ContentType = none)) ∧
    (∀ t, firstSupportedType res.ContentType = some t →
      (∀ r, ParseSite fuel std res site = some r →
        r.2 = none ∧ r.1.Type_ = t ∧ r.1.Err = site.Err) ∧
      (t ≠ "text/html" → ∃ r, ParseSite fuel std res site = some r) ∧
      (t = "text/html" →
        (ParseSite fuel std res site = none ↔
          HtmlParser.Parse fuel res.Tokens site = none))) ∧
    (firstSupportedType unclosedParagraphResponse.ContentType = some "text/html" ∧
      ParseSite fuel std unclosedParagraphResponse site = none) := by
  have hsome : ∀ t, firstSupportedType res.ContentType = some t →
      (∀ r, ParseSite fuel std res site = some r →
        r.2 = none ∧ r.1.Type_ = t ∧ r.1.Err = site.Err) ∧
      (t ≠ "text/html" → ∃ r, ParseSite fuel std res site = some r) ∧
      (t = "text/html" →
        (ParseSite fuel std res site = none ↔
          HtmlParser.Parse fuel res.Tokens site = none)) := by
    intro t ht
    have he := ParseSite_eq fuel std res site
    rw [ht] at he
    dsimp only at he
    by_cases hh : t = "text/html"
    · rw [if_pos hh] at he
      refine ⟨fun r hr => ?_, fun hne => absurd hh hne, fun _ => ?_⟩
      · rw [he] at hr
        cases hp : HtmlParser.Parse fuel res.Tokens site with
        | none => rw [hp] at hr; cases hr
        | some parsed =>
          rw [hp] at hr
          cases hr
          exact ⟨rfl, rfl, HtmlParser_Parse_err fuel res.Tokens site parsed hp⟩
      · rw [he]
        cases HtmlParser.Parse fuel res.Tokens site <;> simp
    · rw [if_neg hh] at he
      refine ⟨fun r hr => ?_, fun _ => ⟨_, he⟩, fun h => absurd h hh⟩
      rw [he] at hr
      cases hr
      refine ⟨rfl, rfl, ?_⟩
      cases res.Body <;> rfl
  have hnone : firstSupportedType res.ContentType = none →
      ParseSite fuel std res site =
        some ({ site with Type_ := res.ContentType,
                          Err := some (noParserError res.ContentType) },
              some (noParserError res.ContentType)) := by
    intro hn
    have he := ParseSite_eq fuel std res site
    rw [hn] at he
    exact he
  refine ⟨hnone, fun r hr => ?_, hsome, by rfl, ?_⟩
  · cases hf : firstSupportedType res.ContentType with
    | none =>
      rw [hnone hf] at hr
      cases hr
      simp
    | some t =>
      have := ((hsome t hf).1 r hr).1
      simp [this]
  · have he := ParseSite_eq fuel std unclosedParagraphResponse site
    have ht : firstSupportedType unclosedParagraphResponse.ContentType = some "text/html" := by
      rfl
    rw [ht] at he
    dsimp only at he
    rw [if_pos rfl] at he
    rw [he]
    have hp : HtmlParser.Parse fuel unclosedParagraphResponse.Tokens site = none := by
      cases fuel with
      | zero => rfl
      | succ fuel =>
        cases fuel with
        | zero => rfl
        | succ fuel =>
          have h := (parseText_without_text fuel).1 [] site (by simp)
          simp [HtmlParser.Parse, parseLoop, unclosedParagraphResponse, unclosedParagraph,
            tokenizerNext, parseStartTagToken, Contains, textTokenStartTags, h]
    rw [hp]
    rfl

/-! ## C13: the enqueue rule -/

set_option maxRecDepth 100000 in
/-- C14 fails on a queue of 301 visited entries with the draws 0, 0, 299: the threshold
test uses the length read before the loop (301), the first two attempts discard an entry
each, and the third attempt indexes the queue, now 299 long, at 299. The selection ends in
an index-out-of-range panic with 299 entries left. -/
theorem C14_index_out_of_range :
    staleQueueController.scrapeQueue.length = 301 ∧
    thirdDrawHigh 2 % randomIndexThreshold = 299 ∧
    staleQueueController.getScrapingJob thirdDrawHigh =
      some (Exec.panic
        { staleQueueController with
          scrapeQueue :=
            List.replicate 299 (Site.target "https://a.test/about" 1 "https://a.test/") }) ∧
    (List.replicate 299 (Site.target "https://a.test/about" 1 "https://a.test/")).get? 299 =
      none := by
  refine ⟨by rfl, by rfl, by rfl, by rfl⟩

/-! ## C15: first in, first out below the threshold -/

/-- Below the threshold the loop always takes index 0: it drops visited entries from the
front and returns the first entry that is not visited. -/
theorem getScrapingJobLoop_front (rand : Nat → Nat) (len : Nat)
    (hlen : len ≤ randomIndexThreshold) (s : Site) (post : List Site) :
    ∀ (pre : List Site) (fuel k : Nat) (c : Controller),
      c.scrapeQueue = pre ++ s :: post → (∀ d ∈ pre, d.Url ∈ c.scrapedSites) →
      s.Url ∉ c.scrapedSites → pre.length < fuel →
      getScrapingJobLoop rand len fuel k c =
        some (Exec.done { Cmd := Command.ScrapeCommand, Site := s }
          { c with scrapeQueue := post }) := by
  intro pre
  induction pre with
  | nil =>
    intro fuel k c hq _ hs hf
    cases fuel with
    | zero => omega
    | succ fuel =>
      have hv : ¬ checkIfItemInList s.Url c.scrapedSites = true :=
        fun h => hs ((checkIfItemInList_iff _ _).mp h)
      unfold getScrapingJobLoop
      rw [if_pos (by rw [hq]; simp)]
      dsimp only
      rw [if_neg (by omega : ¬ len > randomIndexThreshold)]
      simp only [hq, List.nil_append, List.get?_cons_zero, List.take_zero, List.drop_succ_cons,
        List.drop_zero]
      rw [if_neg hv]
  | cons d pre ih =>
    intro fuel k c hq hpre hs hf
    cases fuel with
    | zero => omega
    | succ fuel =>
      have hv : checkIfItemInList d.Url c.scrapedSites = true :=
        (checkIfItemInList_iff _ _).mpr (hpre d (List.mem_cons_self _ _))
      unfold getScrapingJobLoop
      rw [if_pos (by rw [hq]; simp)]
      dsimp only
      rw [if_neg (by omega : ¬ len > randomIndexThreshold)]
      simp only [hq, List.cons_append, List.get?_cons_zero, List.take_zero, List.drop_succ_cons,
        List.drop_zero, List.nil_append]
      rw [if_pos hv]
      exact ih fuel (k + 1) _ rfl (fun x hx => hpre x (List.mem_cons_of_mem _ hx)) hs
        (by simp only [List.length_cons] at hf; omega)

/-- Below the threshold, a queue of visited entries only is drained and answered with the
`Wait` job. -/
theorem getScrapingJobLoop_drained (rand : Nat → Nat) (len : Nat)
    (hlen : len ≤ randomIndexThreshold) :
    ∀ (pre : List Site) (fuel k : Nat) (c : Controller),
      c.scrapeQueue = pre → (∀ d ∈ pre, d.Url ∈ c.scrapedSites) → pre.length < fuel →
      getScrapingJobLoop rand len fuel k c =
        some (Exec.done { Cmd := Command.WaitCommand, Site := Site.zero }
          { c with scrapeQueue := [] }) := by
  intro pre
  induction pre with
  | nil =>
    intro fuel k c hq _ hf
    cases fuel with
    | zero => omega
    | succ fuel =>
      unfold getScrapingJobLoop
      rw [if_neg (by rw [hq]; simp)]
      rw [← hq]
  | cons d pre ih =>
    intro fuel k c hq hpre hf
    cases fuel with
    | zero => omega
    | succ fuel =>
      have hv : checkIfItemInList d.Url c.scrapedSites = true :=
        (checkIfItemInList_iff _ _).mpr (hpre d (List.mem_cons_self _ _))
      unfold getScrapingJobLoop
      rw [if_pos (by rw [hq]; simp)]
      dsimp only
      rw [if_neg (by omega : ¬ len > randomIndexThreshold)]
      simp only [hq, List.get?_cons_zero, List.take_zero, List.drop_succ_cons,
        List.drop_zero, List.nil_append]
      rw [if_pos hv]
      exact ih fuel (k + 1) _ rfl (fun x hx => hpre x (List.mem_cons_of_mem _ hx))
        (by simp only [List.length_cons] at hf; omega)

/-- C15: on a frontier of at most 300 entries, `getScrapingJob` returns, whatever the
random source. If the frontier is some visited entries, then an entry `s` that is not
visited, then `post`, the job is `Scrape s` and the frontier left is `post`; if every entry
is visited, the empty frontier included, the job is `Wait` with the zero site and the
frontier left is empty. Nothing but the frontier changes. -/
theorem C15_fifo_below_threshold (c : Controller) (rand : Nat → Nat)
    (h : c.scrapeQueue.length ≤ 300) :
    (∀ (pre : List Site) (s : Site) (post : List Site),
      c.scrapeQueue = pre ++ s :: post → (∀ d ∈ pre, d.Url ∈ c.scrapedSites) →
      s.Url ∉ c.scrapedSites →
      c.getScrapingJob rand =
        some (Exec.done { Cmd := Command.ScrapeCommand, Site := s }
          { c with scrapeQueue := post })) ∧
    ((∀ d ∈ c.scrapeQueue, d.Url ∈ c.scrapedSites) →
      c.getScrapingJob rand =
        some (Exec.done { Cmd := Command.WaitCommand, Site := Site.zero }
          { c with scrapeQueue := [] })) := by
  constructor
  · intro pre s post hq hpre hs
    unfold Controller.getScrapingJob Controller.getScrapingJobFuel
    exact getScrapingJobLoop_front rand _ h s post pre _ 0 c hq hpre hs
      (by rw [hq]; simp; omega)
  · intro hall
    unfold Controller.getScrapingJob Controller.getScrapingJobFuel
    exact getScrapingJobLoop_drained rand _ h c.scrapeQueue _ 0 c rfl hall
      (Nat.lt_succ_self _)

/-- C15 at a concrete input: a visited entry in front of a fresh one. -/
theorem C15_fifo_below_threshold_witness :
    visitedFirstController.scrapeQueue.length ≤ 300 ∧
    visitedFirstController.getScrapingJob zeroRand =
      some (Exec.done { Cmd := Command.ScrapeCommand,
                        Site := Site.target "https://a.test/x" 1 "s" }
        { visitedFirstController with scrapeQueue := [] }) :=
  ⟨by decide,
   (C15_fifo_below_threshold visitedFirstController zeroRand (by decide)).1
     [Site.target "https://a.test/" 0 ""] (Site.target "https://a.test/x" 1 "s") [] rfl
     (by decide) (by decide)⟩

/-! ## C16: metadata extraction -/

/-- Once a recognized key has been seen, `parseMeta` returns the value of the next
`content` attribute. -/
theorem parseMetaLoop_usable (attrs : List Attribute) :
    parseMetaLoop attrs true =
      match attrs.find? (fun attr => decide (attr.Key = "content")) with
      | some attr => attr.Val
      | none => "" := by
  induction attrs with
  | nil => rfl
  | cons attr rest ih =>
    unfold parseMetaLoop
    by_cases hk : Contains metaContentTags attr.Key = true
    · have hne : attr.Key ≠ "content" := by
        intro he
        rw [he] at hk
        revert hk
        decide
      rw [if_pos hk, ih, List.find?_cons_of_neg _ (by simpa using hne)]
    · rw [if_neg hk]
      by_cases hc : attr.Key = "content"
      · rw [if_pos hc, if_pos rfl, List.find?_cons_of_pos _ (by simpa using hc)]
      · rw [if_neg hc, ih, List.find?_cons_of_neg _ (by simpa using hc)]

/-- Before a recognized key has been seen, `parseMeta` passes over every attribute. -/
theorem parseMetaLoop_eq (attrs : List Attribute) :
    parseMetaLoop attrs false = contentAfterKey attrs := by
  induction attrs with
  | nil => rfl
  | cons attr rest ih =>
    unfold parseMetaLoop contentAfterKey
    by_cases hk : Contains metaContentTags attr.Key = true
    · rw [if_pos hk, parseMetaLoop_usable, List.dropWhile_cons_of_neg (by simp [hk])]
    · rw [if_neg hk, List.dropWhile_cons_of_pos (by simpa using hk)]
      by_cases hc : attr.Key = "content"
      · rw [if_pos hc, if_neg (by decide), ih]
        rfl
      · rw [if_neg hc, ih]
        rfl

/-- C16 fails on the tag `<meta content="about cats" description="">`: its attribute list
includes an attribute with the key `description` and a `content` attribute, yet `parseMeta`
returns the empty string and `parseStartTagToken` leaves the target's text unchanged,
because the `content` attribute comes before the key. With the same two attributes in the
other order, `<meta description="" content="about cats">`, the value is returned and
appended to the text. -/
theorem C16_content_before_key :
    (∃ attr ∈ contentFirstMeta.Attr, attr.Key = "description") ∧
    (∃ attr ∈ contentFirstMeta.Attr, attr.Key = "content" ∧ attr.Val = "about cats") ∧
    contentFirstMeta.Attr.Perm keyFirstMeta.Attr ∧
    parseMeta contentFirstMeta = "" ∧
    parseStartTagToken 1 contentFirstMeta [] rootTarget = some ([], rootTarget) ∧
    parseMeta keyFirstMeta = "about cats" ∧
    parseStartTagToken 1 keyFirstMeta [] rootTarget =
      some ([], { rootTarget with Text := ["about cats"] }) := by
  refine ⟨⟨_, List.mem_cons_of_mem _ (List.mem_cons_self _ _), rfl⟩,
    ⟨_, List.mem_cons_self _ _, rfl, rfl⟩, List.Perm.swap _ _ _, by rfl, by rfl, by rfl, by rfl⟩

/-- What `parseMeta` and `parseStartTagToken` do on a meta start tag: `parseMeta` returns
the value of the first `content` attribute that comes after the first attribute with key
`description`, `keywords` or `author`, and the empty string when no `content` attribute
follows such a key; when a recognized key comes first and a `content` attribute later,
with no other `content` attribute between them, it returns that attribute's value, and
with no recognized key at all it returns the empty string. `parseStartTagToken` appends
the returned value to the target's text when it is non-empty and otherwise leaves the
target as it is; it reads no token. -/
theorem parseMeta_spec (token : Token) (fuel : Nat) (toks : List Token)
    (site : Site) (hmeta : token.Data = "meta") :
    parseMeta token = contentAfterKey token.Attr ∧
    (∀ (pre mid post : List Attribute) (key content : Attribute),
      token.Attr = pre ++ key :: mid ++ content :: post →
      (∀ attr ∈ pre, Contains metaContentTags attr.Key = false) →
      Contains metaContentTags key.Key = true →
      (∀ attr ∈ mid, attr.Key ≠ "content") → content.Key = "content" →
      parseMeta token = content.Val) ∧
    ((∀ attr ∈ token.Attr, Contains metaContentTags attr.Key = false) →
      parseMeta token = "" ∧
      parseStartTagToken (fuel + 1) token toks site = some (toks, site)) ∧
    (parseMeta token ≠ "" →
      parseStartTagToken (fuel + 1) token toks site =
        some (toks, { site with Text := site.Text ++ [parseMeta token] })) ∧
    (parseMeta token = "" →
      parseStartTagToken (fuel + 1) token toks site = some (toks, site)) := by
  have heq : parseMeta token = contentAfterKey token.Attr := parseMetaLoop_eq token.Attr
  have hne : token.Data ≠ "a" := by rw [hmeta]; decide
  have hempty : parseMeta token = "" →
      parseStartTagToken (fuel + 1) token toks site = some (toks, site) := by
    intro h
    rw [parseStartTagToken, if_neg hne, if_pos hmeta]
    dsimp only
    rw [if_neg (by simpa using h)]
  refine ⟨heq, ?_, fun hno => ?_, fun h => ?_, hempty⟩
  · intro pre mid post key content hattr hpre hkey hmid hcontent
    rw [heq, hattr]
    unfold contentAfterKey
    have hd : (pre ++ key :: mid ++ content :: post).dropWhile
        (fun attr => !Contains metaContentTags attr.Key) = key :: (mid ++ content :: post) := by
      rw [List.append_assoc, List.dropWhile_append_of_pos (by
        intro a ha
        simp [hpre a ha])]
      rw [List.cons_append, List.dropWhile_cons_of_neg (by simp [hkey])]
    rw [hd]
    dsimp only
    have hf : (mid ++ content :: post).find? (fun attr => decide (attr.Key = "content")) =
        some content := by
      rw [List.find?_append]
      have hnone : mid.find? (fun attr => decide (attr.Key = "content")) = none := by
        rw [List.find?_eq_none]
        intro a ha
        simpa using hmid a ha
      rw [hnone]
      simp [hcontent]
    rw [hf]
  · have hnil : token.Attr.dropWhile (fun attr => !Contains metaContentTags attr.Key) = [] := by
      rw [List.dropWhile_eq_nil_iff]
      intro a ha
      simp [hno a ha]
    have hm : parseMeta token = "" := by
      rw [heq]
      unfold contentAfterKey
      rw [hnil]
    exact ⟨hm, hempty hm⟩
  · rw [parseStartTagToken, if_neg hne, if_pos hmeta]
    dsimp only
    rw [if_pos h]

/-- The tag `<meta description="" content="about cats">` through `parseMeta_spec`. -/
theorem parseMeta_spec_example :
    keyFirstMeta.Data = "meta" ∧
    parseMeta keyFirstMeta = "about cats" :=
  ⟨rfl,
   (parseMeta_spec keyFirstMeta 0 [] rootTarget rfl).2.1 [] [] []
     { Namespace := "", Key := "description", Val := "" }
     { Namespace := "", Key := "content", Val := "about cats" } rfl
     (by simp) (by decide) (by simp) rfl⟩

end GSCrawler
